import Mathlib

/-!
Verification development for the UpdaTA update orchestrator.

The Python sources are shallowly embedded: Python `str` values are `List Char`,
`int` is `Int` (with the decimal parser modelled explicitly), exceptions are
`Except String`, and the filesystem / network effects of the two scripts are
passed in as explicit oracle arguments.
-/

namespace UpdaTA

/-! ## Python string primitives -/

/-- Characters Python's `int()` strips from both ends of its argument
(space, tab, newline, carriage return, vertical tab, form feed). -/
def isPyWS (c : Char) : Bool :=
  c.toNat = 32 || c.toNat = 9 || c.toNat = 10 || c.toNat = 13 ||
    c.toNat = 11 || c.toNat = 12

/-- ASCII decimal digit test, `'0'` through `'9'`. -/
def isDigitChar (c : Char) : Bool :=
  48 ≤ c.toNat && c.toNat ≤ 57

/-- Membership in Python's `string.ascii_lowercase` (`'a'` to `'z'`). -/
def isLowerAZ (c : Char) : Bool :=
  97 ≤ c.toNat && c.toNat ≤ 122

/-- Numeric value of a decimal digit character. -/
def digitVal (c : Char) : Nat :=
  c.toNat - 48

/-- Value of a string of decimal digits, most significant first, folded
from an initial accumulator. -/
def charsValFrom (a : Nat) (s : List Char) : Nat :=
  s.foldl (fun acc c => acc * 10 + digitVal c) a

/-- Value of a string of decimal digits, most significant first. -/
def charsVal (s : List Char) : Nat :=
  charsValFrom 0 s

/-- Decimal digit character for a value below ten. -/
def digitToChar (d : Nat) : Char :=
  Char.ofNat (48 + d)

/-- Fuel-based digit emitter behind `natToChars`. -/
def natToCharsAux : Nat → Nat → List Char → List Char
  | 0, _, acc => acc
  | fuel + 1, n, acc =>
      if n < 10 then digitToChar n :: acc
      else natToCharsAux fuel (n / 10) (digitToChar (n % 10) :: acc)

/-- Decimal rendering of a natural number, as Python's `str` of a
non-negative `int` produces it. -/
def natToChars (n : Nat) : List Char :=
  natToCharsAux (n + 1) n []

/-- Strip characters satisfying `p` from both ends of a list. -/
def stripEnds (p : Char → Bool) (s : List Char) : List Char :=
  ((s.dropWhile p).reverse.dropWhile p).reverse

/-- Model of Python `int(s)`: strip surrounding whitespace, allow one
optional sign, then require a non-empty run of decimal digits. -/
def pyIntDigits (neg : Bool) (ds : List Char) : Except String Int :=
  if ds ≠ [] ∧ ds.all isDigitChar then
    Except.ok (if neg then -(charsVal ds : Int) else (charsVal ds : Int))
  else
    Except.error "invalid literal for int() with base 10"

/-- Model of Python `int(s)` on a `str` argument. -/
def pyInt (s : List Char) : Except String Int :=
  match stripEnds isPyWS s with
  | '+' :: rest => pyIntDigits false rest
  | '-' :: rest => pyIntDigits true rest
  | rest => pyIntDigits false rest

/-- Python `s.split('.')`: split on every dot, preserving empty parts.
Always returns at least one part. -/
def splitDot : List Char → List (List Char)
  | [] => [[]]
  | c :: rest =>
      if c = '.' then [] :: splitDot rest
      else
        match splitDot rest with
        | [] => [[c]]
        | p :: ps => (c :: p) :: ps

/-! ## `VersionNumber` (src/updata/strbo_version.py)

A component of a version number is either a non-negative integer or the
wildcard `'*'`.  The constructor `VersionNumber.__init__` rejects negative
integers, so constructed components store a `Nat`; the parser hands the
constructor `PyVal`s carrying a possibly-negative `Int`. -/

/-- A component value as produced by the parser: a Python `int` or the
string `'*'`. -/
inductive PyVal where
  | int (i : Int)
  | star
deriving DecidableEq, Repr

/-- A validated version component as stored by `VersionNumber`. -/
inductive Comp where
  | num (n : Nat)
  | wild
deriving DecidableEq, Repr

/-- The fields of a `VersionNumber`.  The first three components are
mandatory (enforced by the type, as `__init__` enforces it with a check),
`beta` and `hotfix` are optional. -/
structure VN where
  major : Comp
  minor : Comp
  patch : Comp
  beta : Option Comp
  hotfix : Option Char
deriving DecidableEq, Repr

/-- `VersionNumber._is_pattern`: some component is the wildcard and there is
no hotfix. -/
def VN.isPattern (v : VN) : Bool :=
  (v.major == Comp.wild || v.minor == Comp.wild || v.patch == Comp.wild
    || v.beta == some Comp.wild) && v.hotfix.isNone

/-- Contribution of one component to `_specificity`. -/
def Comp.specCount : Comp → Nat
  | .num _ => 1
  | .wild => 0

/-- `VersionNumber.pattern_specificity()`: the number of specified,
non-wildcard components. -/
def VN.specificity (v : VN) : Nat :=
  v.major.specCount + v.minor.specCount + v.patch.specCount +
    (match v.beta with
     | none => 0
     | some c => c.specCount)

/-- The per-component validation performed by `check` in
`VersionNumber.__init__`. -/
def checkComp (isPat : Bool) : PyVal → Except String Comp
  | .star => if isPat then Except.ok Comp.wild else Except.error "Bad version component"
  | .int i => if i < 0 then Except.error "Bad version component" else Except.ok (Comp.num i.toNat)

/-- `VersionNumber.__init__`: validate the components and build the value. -/
def mkVN (major minor patch : PyVal) (beta : Option PyVal) (hotfix : Option Char) :
    Except String VN :=
  if beta.isSome && hotfix.isSome then
    Except.error "Beta and hotfix exclude each other"
  else
    let isPat := (major == PyVal.star || minor == PyVal.star || patch == PyVal.star
      || beta == some PyVal.star) && hotfix.isNone
    (checkComp isPat major).bind fun ma =>
    (checkComp isPat minor).bind fun mi =>
    (checkComp isPat patch).bind fun pa =>
    (match beta with
     | none => Except.ok none
     | some b => (checkComp isPat b).map some).bind fun be =>
    match hotfix with
    | some h =>
        if !isLowerAZ h || isPat then Except.error "Bad version component"
        else Except.ok ⟨ma, mi, pa, be, some h⟩
    | none => Except.ok ⟨ma, mi, pa, be, none⟩

/-- `parse_component` of `VersionNumber.from_string`, for a component that is
present.  Returns the parsed value together with the updated
`is_pattern_allowed` flag. -/
def parseComponentS (s : List Char) (allowed : Bool) : Except String (PyVal × Bool) :=
  if allowed && s == ['*'] then Except.ok (PyVal.star, allowed)
  else (pyInt s).map fun i => (PyVal.int i, false)

/-- `v[0][1:] if v[0][0] == 'V' else v[0]` — indexing an empty string raises. -/
def stripV : List Char → Except String (List Char)
  | [] => Except.error "string index out of range"
  | c :: rest => Except.ok (if c = 'V' then rest else c :: rest)

/-- `v[2][-1]` — indexing an empty string raises. -/
def pyLastChar (s : List Char) : Except String Char :=
  match s.getLast? with
  | none => Except.error "string index out of range"
  | some c => Except.ok c

/-- `VersionNumber.from_string`: split on dots, strip an optional `V` prefix,
extract a trailing hotfix letter in the three-component form, then parse the
components from least significant to most significant, threading the
`is_pattern_allowed` flag. -/
def fromString (version : List Char) (isPatternAllowed : Bool) : Except String VN :=
  match splitDot version with
  | [v0, v1, v2] =>
      (stripV v0).bind fun major0 =>
      (pyLastChar v2).bind fun lastc =>
      let hp : Option Char × List Char :=
        if isLowerAZ lastc then (some lastc, v2.dropLast) else (none, v2)
      -- parse_component(beta=None) leaves the value and the flag unchanged
      (parseComponentS hp.2 isPatternAllowed).bind fun pv =>
      (parseComponentS v1 pv.2).bind fun mv =>
      (parseComponentS major0 mv.2).bind fun jv =>
      mkVN jv.1 mv.1 pv.1 none hp.1
  | [v0, v1, v2, v3] =>
      (stripV v0).bind fun major0 =>
      (parseComponentS v3 isPatternAllowed).bind fun bv =>
      (parseComponentS v2 bv.2).bind fun pv =>
      (parseComponentS v1 pv.2).bind fun mv =>
      (parseComponentS major0 mv.2).bind fun jv =>
      mkVN jv.1 mv.1 pv.1 (some bv.1) none
  | _ => Except.error "Version string must contain 2 or 3 dots"

/-- Rendering of one component by `VersionNumber.__str__`. -/
def Comp.toChars : Comp → List Char
  | .num n => natToChars n
  | .wild => ['*']

/-- `VersionNumber.__str__`: `major.minor.patch`, then `.beta` if a beta is
present, then the hotfix letter if one is present. -/
def VN.toChars (v : VN) : List Char :=
  v.major.toChars ++ '.' :: v.minor.toChars ++ '.' :: v.patch.toChars ++
    (match v.beta with
     | some b => '.' :: b.toChars
     | none => []) ++
    (match v.hotfix with
     | some h => [h]
     | none => [])

/-- `VersionNumber.__eq__` against a possibly-`None` right-hand side:
`None` compares unequal, otherwise all five fields must agree. -/
def VN.eqPy (a : VN) (b : Option VN) : Bool :=
  match b with
  | none => false
  | some b =>
      a.major == b.major && a.minor == b.minor && a.patch == b.patch &&
        a.hotfix == b.hotfix && a.beta == b.beta

/-- Structural equality of two version numbers (`__eq__` on two values). -/
def eqVN (a b : VN) : Bool :=
  a.eqPy (some b)

/-- `is_smaller` inside `VersionNumber.__lt__`: only two `int`s compare,
anything else is "not smaller". -/
def isSmaller : Comp → Comp → Bool
  | .num a, .num b => a < b
  | _, _ => false

/-- `VersionNumber.__lt__` on two version numbers. -/
def ltVN (a b : VN) : Bool :=
  if a.major ≠ b.major then isSmaller a.major b.major
  else if a.minor ≠ b.minor then isSmaller a.minor b.minor
  else if a.patch ≠ b.patch then isSmaller a.patch b.patch
  else
    match a.beta, b.beta with
    | some x, some y => isSmaller x y
    | none, none =>
        match a.hotfix, b.hotfix with
        | none, some _ => true
        | some _, none => false
        | some h1, some h2 => h1 < h2
        | none, none => false
    | none, some _ => true
    | some _, none => false

/-- `VersionNumber.__lt__` against a possibly-`None` right-hand side: the
code dereferences `other.major`, so `None` raises `AttributeError`. -/
def VN.ltPy (a : VN) (b : Option VN) : Except String Bool :=
  match b with
  | none => Except.error "AttributeError: NoneType has no attribute major"
  | some b => Except.ok (ltVN a b)

/-- `VersionNumber.matches`: match a concrete version against this
(possibly pattern) version; matching a pattern argument raises. -/
def VN.matchesPy (self version : VN) : Except String Bool :=
  if version.isPattern then
    Except.error "Cannot match pattern against reference"
  else
    Except.ok (
      if !self.isPattern then eqVN self version
      else if self.beta.isNone != version.beta.isNone then false
      else if 1 ≤ self.specificity && self.major != version.major then false
      else if 2 ≤ self.specificity && self.minor != version.minor then false
      else if 3 ≤ self.specificity &&
          (self.patch != version.patch || self.hotfix != version.hotfix) then false
      else if 4 ≤ self.specificity && self.beta != version.beta then false
      else true)

/-! ## `VersionRange` (src/updata/strbo_version.py) -/

/-- The fields of a `VersionRange`. -/
structure VRange where
  minV : VN
  maxV : Option VN
deriving DecidableEq, Repr

/-- `VersionRange.__init__`: boundaries must agree on beta-ness, must be
ordered, and an upper boundary equal to the lower is dropped. -/
def mkVRange (minVersion : VN) (maxVersion : Option VN) : Except String VRange :=
  match maxVersion with
  | some m =>
      if minVersion.beta.isNone != m.beta.isNone then
        Except.error "vrange boundaries mismatch"
      else if ltVN m minVersion then
        Except.error "bad vrange boundaries order"
      else
        Except.ok ⟨minVersion, if eqVN minVersion m then none else some m⟩
  | none => Except.ok ⟨minVersion, none⟩

/-- A vrange specification from the JSON document: a single string or a
list of strings. -/
inductive VrangeSpec where
  | vstr (s : List Char)
  | vlist (l : List (List Char))
deriving DecidableEq, Repr

/-- `VersionRange.from_vrange`. -/
def fromVrange : VrangeSpec → Except String VRange
  | .vstr s => (fromString s true).bind fun v => mkVRange v none
  | .vlist l =>
      match l with
      | [a, b] =>
          (fromString a true).bind fun va =>
          (fromString b true).bind fun vb =>
          mkVRange va (some vb)
      | _ => Except.error "vrange list has wrong number of items"

/-- Python `<` on two components: two `int`s compare numerically, the two
wildcard strings compare as `'*' < '*' = False`, and a mixed comparison
raises `TypeError`. -/
def pyLtComp : Comp → Comp → Except String Bool
  | .num a, .num b => Except.ok (decide (a < b))
  | .wild, .wild => Except.ok false
  | _, _ => Except.error "TypeError: int and str are not comparable"

/-- Python `>` on two components. -/
def pyGtComp : Comp → Comp → Except String Bool
  | .num a, .num b => Except.ok (decide (b < a))
  | .wild, .wild => Except.ok false
  | _, _ => Except.error "TypeError: int and str are not comparable"

/-- Python `<` on the beta fields; a `None` operand raises `TypeError`. -/
def pyLtOptComp : Option Comp → Option Comp → Except String Bool
  | some a, some b => pyLtComp a b
  | _, _ => Except.error "TypeError: NoneType is not comparable"

/-- Python `>` on the beta fields; a `None` operand raises `TypeError`. -/
def pyGtOptComp : Option Comp → Option Comp → Except String Bool
  | some a, some b => pyGtComp a b
  | _, _ => Except.error "TypeError: NoneType is not comparable"

/-- Python truthiness of a component: a nonzero `int` or the non-empty
string `'*'`. -/
def Comp.truthy : Comp → Bool
  | .num n => n ≠ 0
  | .wild => true

/-- The hotfix comparison block of the lower-boundary check in
`VersionRange.contains` (lines 712-718): `true` means "return False". -/
def hotfixRejectLower (vh bh : Option Char) : Bool :=
  match vh, bh with
  | none, some _ => true
  | none, none => false
  | some vh, some bh => vh < bh
  | some _, none => false

/-- The hotfix comparison block of the upper-boundary check in
`VersionRange.contains` (lines 738-744): `true` means "return False". -/
def hotfixRejectUpper (vh bh : Option Char) : Bool :=
  match vh, bh with
  | some _, none => true
  | none, none => false
  | some vh, some bh => bh < vh
  | none, some _ => false

/-- The lower-boundary section of `VersionRange.contains` (lines 697-721):
`ok false` when the check hits a `return False`, `ok true` when it falls
through to the upper-boundary section. -/
def lowerCheck (version minV : VN) : Except String Bool :=
  if 1 ≤ minV.specificity then
    (pyLtComp version.major minV.major).bind fun b1 =>
    if b1 then Except.ok false
    else if version.major == minV.major && 2 ≤ minV.specificity then
      (pyLtComp version.minor minV.minor).bind fun b2 =>
      if b2 then Except.ok false
      else if version.minor == minV.minor && 3 ≤ minV.specificity then
        (pyLtComp version.patch minV.patch).bind fun b3 =>
        if b3 then Except.ok false
        else if version.patch == minV.patch then
          if hotfixRejectLower version.hotfix minV.hotfix then Except.ok false
          else if 4 ≤ minV.specificity then
            (pyLtOptComp version.beta minV.beta).map fun b4 => !b4
          else Except.ok true
        else Except.ok true
      else Except.ok true
    else Except.ok true
  else Except.ok true

/-- The upper-boundary section of `VersionRange.contains` (lines 723-747).
Note the descent condition on line 730: `version.major and
self.max_version.major`, a truthiness test rather than an equality test. -/
def upperCheck (version maxV : VN) : Except String Bool :=
  if 1 ≤ maxV.specificity then
    (pyGtComp version.major maxV.major).bind fun b1 =>
    if b1 then Except.ok false
    else if version.major.truthy && maxV.major.truthy && 2 ≤ maxV.specificity then
      (pyGtComp version.minor maxV.minor).bind fun b2 =>
      if b2 then Except.ok false
      else if version.minor == maxV.minor && 3 ≤ maxV.specificity then
        (pyGtComp version.patch maxV.patch).bind fun b3 =>
        if b3 then Except.ok false
        else if version.patch == maxV.patch then
          if hotfixRejectUpper version.hotfix maxV.hotfix then Except.ok false
          else if 4 ≤ maxV.specificity then
            (pyGtOptComp version.beta maxV.beta).map fun b4 => !b4
          else Except.ok true
        else Except.ok true
      else Except.ok true
    else Except.ok true
  else Except.ok true

/-- `VersionRange.contains`. -/
def VRange.contains (r : VRange) (version? : Option VN) : Except String Bool :=
  match version? with
  | none => Except.ok false
  | some version =>
      if version.isPattern then
        Except.error "Cannot match pattern with range"
      else if version.beta.isNone != r.minV.beta.isNone then
        Except.ok false
      else
        match r.maxV with
        | none => r.minV.matchesPy version
        | some maxv =>
            (lowerCheck version r.minV).bind fun lb =>
            if lb then upperCheck version maxv else Except.ok false

/-! ## Plan steps (the step dictionaries of the plan JSON) -/

/-- A plan step, one variant per `action` value, carrying the payload fields
the scripts read. -/
inductive Step where
  | nop (originalUpdataVersion : List Char)
  | manageRepos (baseUrl releaseLine : List Char)
      (disableFlavor enableFlavor : Option (List Char))
  | dnfInstall (requestedVersion versionFileUrl : List Char)
      (updataUpdate : Option (List Char))
  | rebootSystem
  | runInstaller (requestedLine requestedVersion requestedFlavor installerUrl : List Char)
  | recoverSystem (requestedLine requestedVersion requestedFlavor : List Char)
      (keepUserData : Bool) (recoveryDataUrl : Option (List Char))
deriving DecidableEq, Repr

/-! ## Compatibility resolution (src/updata/strbo_compatibility.py) -/

/-- The parsed `strbo-recovery-compatibility.json`: the `compatibility`
mapping (revision id to vrange specs, keys unique) and the `rank` list. -/
structure CompatDoc where
  compatibility : List (List Char × List VrangeSpec)
  rank : List (List Char)
deriving Repr

/-- The inner loop of `_determine_compatible_rsys` for one revision: every
vrange spec is parsed and tested (errors from any of them propagate), and
the revision qualifies if some range contains the version. -/
def revCompatible (specs : List VrangeSpec) (version : Option VN) : Except String Bool :=
  specs.foldlM (fun acc spec =>
    (fromVrange spec).bind fun vr =>
    (vr.contains version).map fun b => acc || b) false

/-- `_determine_compatible_rsys`: the set of revision ids compatible with
`version`, as a sublist of the document's keys. -/
def determineCompatibleRsys (compat : List (List Char × List VrangeSpec))
    (version : Option VN) : Except String (List (List Char)) :=
  compat.foldlM (fun revs p =>
    (revCompatible p.2 version).map fun b =>
      if b then revs ++ [p.1] else revs) []

/-- The installer artifact URL built by `ensure_recovery_system_compatibility`. -/
def installerUrlOf (baseUrl targetReleaseLine machineName best : List Char) : List Char :=
  baseUrl ++ "/".toList ++ targetReleaseLine ++ "/recovery-system.".toList ++
    machineName ++ "/strbo-rsysimg-".toList ++ best ++ ".bin".toList

/-- `ensure_recovery_system_compatibility`. -/
def ensureRecoverySystemCompatibility (compatJson : Option CompatDoc)
    (forceRsysUpdate : Bool) (baseUrl machineName : List Char)
    (rsysVersion : Option VN) (targetReleaseLine : List Char)
    (targetVersion : VN) (targetFlavor : List Char) :
    Except String (Option Step) :=
  match compatJson with
  | none => Except.error "File strbo-recovery-compatibility.json missing"
  | some doc =>
      (determineCompatibleRsys doc.compatibility (some targetVersion)).bind
        fun requiredRevisions =>
      (determineCompatibleRsys doc.compatibility rsysVersion).bind
        fun installedRevision =>
      if requiredRevisions.any (installedRevision.contains ·) && !forceRsysUpdate then
        Except.ok none
      else
        match doc.rank.reverse.find? (requiredRevisions.contains ·) with
        | none =>
            Except.error ("No recovery system for " ++
              targetVersion.toChars.asString ++ " found")
        | some best =>
            Except.ok (some (Step.runInstaller targetReleaseLine
              targetVersion.toChars targetFlavor
              (installerUrlOf baseUrl targetReleaseLine machineName best)))

/-! ## DNF variables (src/updata/strbo_repo.py, class DNFVariables) -/

/-- Result of opening and reading one variable file. -/
inductive FileRead where
  | content (s : List Char)
  | fileNotFound
  | permissionDenied
  | otherError
deriving DecidableEq, Repr

/-- The variables directory, as a map from file name to read outcome. -/
def VarsFS : Type := List Char → FileRead

/-- `DNFVariables.read_var`: an empty (falsy) name yields `None`; otherwise
the raw file content is returned, and every read failure yields `None`. -/
def readVar (fs : VarsFS) (varName : List Char) : Option (List Char) :=
  if varName.isEmpty then none
  else
    match fs varName with
    | .content s => some s
    | _ => none

/-- `DNFVariables.write_var`: rejects a falsy name and a `None` value, and
otherwise writes the value through `print`, which appends a newline. -/
def writeVar (fs : VarsFS) (varName : List Char) (value : Option (List Char)) :
    VarsFS × Bool :=
  if varName.isEmpty then (fs, false)
  else
    match value with
    | none => (fs, false)
    | some v => (fun n => if n = varName then FileRead.content (v ++ ['\n']) else fs n, true)

/-! ## Strategy determination (src/updata_determine_strategy.py) -/

/-- `_handle_repo_changes`: normalise the flavor, read the configured
flavor, and build the `manage-repos` step.  Returns the step, the
normalised target flavor, and the `flavor_was_changed` flag. -/
def handleRepoChanges (baseUrl releaseLine : List Char)
    (currentFlavor targetFlavor0 : Option (List Char)) (dnfVars : VarsFS) :
    Step × Option (List Char) × Bool :=
  let t1 : Option (List Char) :=
    match targetFlavor0 with
    | none => currentFlavor
    | some f => some f
  let t2 : Option (List Char) := if t1 = some "stable".toList then some [] else t1
  let flavorWasChanged := t2 ≠ currentFlavor
  let configuredFlavor := readVar dnfVars "strbo_flavor".toList
  let disable : Option (List Char) :=
    match configuredFlavor with
    | some c => if c ≠ [] && some c ≠ t2 then some c else none
    | none => none
  let enable : Option (List Char) :=
    match t2 with
    | some t => if t ≠ [] && configuredFlavor ≠ some t then some t else none
    | none => none
  (Step.manageRepos baseUrl releaseLine disable enable, t2, flavorWasChanged)

/-- `_read_latest_txt_file`: `get` models the HTTP GET, yielding the body
on status 200 and `none` otherwise; the body is trimmed and parsed, and
any failure yields `None`. -/
def readLatestTxt (get : List Char → Option (List Char)) (url : List Char) :
    Option VN :=
  match get url with
  | none => none
  | some text =>
      match fromString (stripEnds isPyWS text) false with
      | .ok v => some v
      | .error _ => none

/-- Accumulator recursion behind `pySplitWS`: `acc` holds the current token
reversed. -/
def pySplitWSAux : List Char → List Char → List (List Char)
  | [], acc => if acc = [] then [] else [acc.reverse]
  | c :: rest, acc =>
      if isPyWS c then
        if acc = [] then pySplitWSAux rest []
        else acc.reverse :: pySplitWSAux rest []
      else pySplitWSAux rest (c :: acc)

/-- Python `s.split()` (split on whitespace runs, no empty parts). -/
def pySplitWS (s : List Char) : List (List Char) :=
  pySplitWSAux s []

/-- Python `line.split('\n')`. -/
def splitNL : List Char → List (List Char)
  | [] => [[]]
  | c :: rest =>
      if c = '\n' then [] :: splitNL rest
      else
        match splitNL rest with
        | [] => [[c]]
        | p :: ps => (c :: p) :: ps

/-- `line.split(None, 3)[0:3]` unpacked into three names: fails unless the
line has at least three whitespace-separated tokens. -/
def firstThreeTokens (line : List Char) :
    Except String (List Char × List Char × List Char) :=
  match pySplitWS line with
  | a :: b :: c :: _ => Except.ok (a, b, c)
  | _ => Except.error "ValueError: not enough values to unpack"

/-- `_get_requested_updata_version`: a non-200 response raises; every
non-empty line is tokenised (a malformed line raises), then the version of
the first line whose package name is `updata` is returned. -/
def getRequestedUpdataVersion (get : List Char → Option (List Char))
    (manifestUrl : List Char) : Except String (Option (List Char)) :=
  match get manifestUrl with
  | none => Except.error ("Cannot access " ++ manifestUrl.asString)
  | some text =>
      (((splitNL text).filter (· ≠ [])).mapM firstThreeTokens).map fun rows =>
        (rows.find? (fun row => row.2.1 = "updata".toList)).map (·.2.2)

/-- The comparison loop of `_version_compare`. -/
def vcLoop : List (Int × Int) → Int → Int
  | [], d => d
  | (x, y) :: rest, d => if x < y then -1 else if y < x then 1 else vcLoop rest d

/-- `_version_compare`: loose dotted-integer comparison of two optional
version strings; a non-integer component raises. -/
def versionCompare (va vb : Option (List Char)) : Except String Int :=
  match va, vb with
  | none, none => Except.ok 0
  | none, some _ => Except.ok (-1)
  | some _, none => Except.ok 1
  | some a, some b =>
      let as' := splitDot a
      let bs := splitDot b
      ((as'.zip bs).mapM fun p =>
        (pyInt p.1).bind fun x => (pyInt p.2).map fun y => (x, y)).map fun pairs =>
      vcLoop pairs ((as'.length : Int) - (bs.length : Int))

/-- The `latest.txt` URL built on the package-manager path
(updata_determine_strategy.py lines 133-134): the flavor component comes
before the `versions` component. -/
def latestTxtUrl (repoUrl targetFlavor : List Char) : List Char :=
  repoUrl ++ "/".toList ++ targetFlavor ++ "/versions/latest.txt".toList

/-- The `.version` manifest URL built on the package-manager path
(updata_determine_strategy.py lines 160-161). -/
def versionFileUrlOf (repoUrl targetFlavor : List Char) (targetVersion : VN) :
    List Char :=
  repoUrl ++ "/".toList ++ targetFlavor ++ "/versions/V".toList ++
    targetVersion.toChars ++ ".version".toList

/-- Python `if not target_flavor: target_flavor = 'stable'`. -/
def normFlavor (targetFlavor0 : Option (List Char)) : List Char :=
  match targetFlavor0 with
  | none => "stable".toList
  | some f => if f = [] then "stable".toList else f

/-- `_handle_version_change`.  `latestGet` and `manifestGet` model the two
HTTP GETs (body on 200, `none` otherwise). -/
def handleVersionChange (currentVersion : VN) (thisUpdataVersion : Option (List Char))
    (targetVersion0 : Option VN) (forceVersionCheck : Bool) (repoUrl : List Char)
    (targetFlavor0 : Option (List Char))
    (latestGet manifestGet : List Char → Option (List Char)) :
    Except String (Option Step) :=
  let targetFlavor := normFlavor targetFlavor0
  match (match targetVersion0 with
         | none => readLatestTxt latestGet (latestTxtUrl repoUrl targetFlavor)
         | some tv => some tv) with
  | none => Except.ok none
  | some targetVersion =>
      if eqVN targetVersion currentVersion && !forceVersionCheck then
        Except.ok none
      else
        let vfu := versionFileUrlOf repoUrl targetFlavor targetVersion
        (getRequestedUpdataVersion manifestGet vfu).bind fun nextVersion =>
        (versionCompare nextVersion thisUpdataVersion).map fun cmp =>
        if cmp < 0 then
          some (Step.dnfInstall targetVersion.toChars vfu
            (some (if nextVersion.isNone then "deferred_removal".toList
                   else "deferred_downgrade".toList)))
        else
          some (Step.dnfInstall targetVersion.toChars vfu none)

/-- `_compute_package_manager_strategy`: append the `manage-repos` step
(always truthy), the optional `dnf-install` step, and — since the strategy
already carries the leading `nop` — the `reboot-system` step. -/
def computePackageManagerStrategy (strategy : List Step)
    (baseUrl : List Char) (targetVersion0 : Option VN)
    (targetFlavor0 : Option (List Char)) (thisUpdataVersion : Option (List Char))
    (mainFlavor : Option (List Char)) (mainVersionNumber : VN)
    (targetReleaseLine : List Char) (dnfVars : VarsFS)
    (latestGet manifestGet : List Char → Option (List Char)) :
    Except String (List Step) :=
  let rc := handleRepoChanges baseUrl targetReleaseLine mainFlavor targetFlavor0 dnfVars
  let strategy1 := strategy ++ [rc.1]
  (handleVersionChange mainVersionNumber thisUpdataVersion targetVersion0 rc.2.2
      (baseUrl ++ "/".toList ++ targetReleaseLine) rc.2.1 latestGet manifestGet).map
    fun step2 =>
  let strategy2 := match step2 with
                   | some s => strategy1 ++ [s]
                   | none => strategy1
  if strategy2 ≠ [] then strategy2 ++ [Step.rebootSystem] else strategy2

/-- The recovery-data `latest.txt` URL (lines 216-218). -/
def recoveryLatestUrl (baseUrl targetReleaseLine targetFlavor machineName : List Char) :
    List Char :=
  baseUrl ++ "/".toList ++ targetReleaseLine ++ "/".toList ++ targetFlavor ++
    "/recovery-data.".toList ++ machineName ++ "/latest.txt".toList

/-- `_determine_recovery_target_version`. -/
def determineRecoveryTargetVersion (baseUrl machineName : List Char)
    (argTargetVersion : Option VN) (argTargetFlavor defaultFlavor : Option (List Char))
    (targetReleaseLine : List Char)
    (latestGet : List Char → Option (List Char)) :
    Except String (VN × List Char) :=
  let tf0 : Option (List Char) :=
    match argTargetFlavor with
    | none => defaultFlavor
    | some f => some f
  let targetFlavor := normFlavor tf0
  match (match argTargetVersion with
         | none => readLatestTxt latestGet
             (recoveryLatestUrl baseUrl targetReleaseLine targetFlavor machineName)
         | some v => some v) with
  | none => Except.error "No target version specified"
  | some v => Except.ok (v, targetFlavor)

/-- The recovery-data artifact URL (lines 377-380). -/
def recoveryDataUrlOf (baseUrl targetReleaseLine targetFlavor machineName : List Char)
    (targetVersion : VN) : List Char :=
  baseUrl ++ "/".toList ++ targetReleaseLine ++ "/".toList ++ targetFlavor ++
    "/recovery-data.".toList ++ machineName ++ "/strbo-update-V".toList ++
    targetVersion.toChars ++ ".bin".toList

/-- How a planner run can abort: `sys.exit(code)` or an uncaught exception. -/
inductive PlanAbort where
  | sysExit (code : Nat)
  | exc (msg : String)
deriving Repr

/-- The command-line configuration of the planner. -/
structure PlannerArgs where
  baseUrl : List Char
  targetVersion : Option VN
  targetReleaseLine : Option (List Char)
  targetFlavor : Option (List Char)
  forceImageFiles : Bool
  forceRsysUpdate : Bool
  keepUserData : Bool
  machineName : List Char

/-- The environment the planner reads: dnf variables, the three HTTP GET
oracles, the compatibility document (`None` when it could not be fetched),
the recovery system version (outer `none`: `get_system_version` returned
`None`; inner option: the version number field), the recovery data version,
and the HEAD probe. -/
structure PlannerEnv where
  dnfVars : VarsFS
  latestGet : List Char → Option (List Char)
  manifestGet : List Char → Option (List Char)
  compatDoc : Option CompatDoc
  recoverySystemVersion : Option (Option VN)
  dataVersion : Option VN
  urlExists : List Char → Bool

/-- The plan-building part of `main` (updata_determine_strategy.py lines
326-394), given a readable main-system version. -/
def planMain (args : PlannerArgs) (thisVersion : List Char)
    (mainVN : VN) (mainLine : List Char) (mainFlavor : Option (List Char))
    (env : PlannerEnv) : Except PlanAbort (List Step) :=
  let targetReleaseLine :=
    match args.targetReleaseLine with
    | none => mainLine
    | some l => l
  let strategy0 : List Step := [Step.nop thisVersion]
  if targetReleaseLine = mainLine && !args.forceImageFiles then
    (computePackageManagerStrategy strategy0 args.baseUrl args.targetVersion
        args.targetFlavor thisVersion mainFlavor mainVN targetReleaseLine
        env.dnfVars env.latestGet env.manifestGet).mapError PlanAbort.exc
  else
    (determineRecoveryTargetVersion args.baseUrl args.machineName
        args.targetVersion args.targetFlavor mainFlavor targetReleaseLine
        env.latestGet).mapError PlanAbort.exc |>.bind fun tvf =>
    match env.recoverySystemVersion with
    | none => Except.error (PlanAbort.sysExit 24)
    | some rvn =>
        (ensureRecoverySystemCompatibility env.compatDoc args.forceRsysUpdate
            args.baseUrl args.machineName rvn targetReleaseLine tvf.1
            tvf.2).mapError PlanAbort.exc |>.bind fun compatStep =>
        let strategy1 := strategy0 ++
          (match compatStep with
           | some s => [s]
           | none => [])
        let needDownload :=
          match env.dataVersion with
          | none => true
          | some dvn => !eqVN dvn tvf.1
        if needDownload then
          let url := recoveryDataUrlOf args.baseUrl targetReleaseLine tvf.2
            args.machineName tvf.1
          if env.urlExists url then
            Except.ok (strategy1 ++ [Step.recoverSystem targetReleaseLine
              tvf.1.toChars tvf.2 args.keepUserData (some url)])
          else
            Except.error (PlanAbort.exc ("Cannot access " ++ url.asString))
        else
          Except.ok (strategy1 ++ [Step.recoverSystem targetReleaseLine
            tvf.1.toChars tvf.2 args.keepUserData none])

/-! ## Plan execution (src/updata_execute.py)

Subprocesses are modelled by an oracle `runCmd` from the argv list to the
decoded lines of the command's standard output (`Except.error` models a
`run_command` failure), HTTP GETs by request oracles, and the two pieces of
on-disk state that carry across the two `dnf-install` phases — the
`/system-update` symlink and `updata_work_dir/manifest.txt` — by an
explicit state record. -/

/-- The on-disk state the executor manipulates: the `/system-update`
symlink (with its target) and the persisted manifest lines. -/
structure ExecState where
  sentinel : Option (List Char)
  manifestTxt : Option (List (List Char))
deriving DecidableEq, Repr

/-- A subprocess oracle: argv to stdout lines, or a failure. -/
def RunCmd : Type := List (List Char) → Except String (List (List Char))

/-- The `['sudo']` prefix of `run_command` invocations. -/
def sudoPrefix (isSudoRequired : Bool) : List (List Char) :=
  if isSudoRequired then ["sudo".toList] else []

/-- `line.split(None, 1)[0]`: the first whitespace-delimited token; a line
of pure whitespace raises `IndexError`. -/
def firstTok (line : List Char) : Except String (List Char) :=
  match pySplitWS line with
  | t :: _ => Except.ok t
  | [] => Except.error "IndexError: list index out of range"

/-- `download_all_packages` (phase 1 of `dnf-install`): clean the package
cache, delete `tempfiles.json`, download and persist the manifest, download
the packages, and create the `/system-update` symlink pointing at the dnf
work directory.  The final `tempfiles.json` count is only logged (its
failures are swallowed) and is not modelled. -/
def downloadAllPackages (runCmd : RunCmd)
    (httpGetLines : List Char → Option (List (List Char)))
    (isSudoRequired : Bool) (stepVersionFileUrl dnfWorkDir : List Char)
    (st : ExecState) : Except String ExecState :=
  (runCmd (sudoPrefix isSudoRequired ++
      ["dnf".toList, "clean".toList, "packages".toList, "--assumeyes".toList])).bind
    fun _ =>
  (if isSudoRequired then
    (runCmd (["sudo".toList, "/bin/rm".toList, "-f".toList,
        (dnfWorkDir ++ "/tempfiles.json".toList)])).map fun _ => ()
   else Except.ok ()).bind fun _ =>
  match httpGetLines stepVersionFileUrl with
  | none => Except.error "HTTPError: version file not accessible"
  | some lines =>
      (((lines.filter (· ≠ [])).mapM firstTok)).bind fun r =>
      let st1 : ExecState := { st with manifestTxt := some r }
      (if r ≠ [] then
        (runCmd (sudoPrefix isSudoRequired ++
            ["dnf".toList, "install".toList, "--assumeyes".toList,
             "--downloadonly".toList] ++ r)).map fun _ => ()
       else Except.ok ()).bind fun _ =>
      (if isSudoRequired then
        (runCmd (["sudo".toList, "ln".toList, "-s".toList, dnfWorkDir,
            "/system-update".toList])).map fun _ => ()
       else Except.ok ()).map fun _ =>
      { st1 with sentinel := some dnfWorkDir }

/-- `set(line.strip() for line in manifest.open().readlines())`, with a
failed read (no manifest file) yielding the empty set. -/
def manifestSetOf (manifestTxt : Option (List (List Char))) : List (List Char) :=
  match manifestTxt with
  | none => []
  | some lines => lines.map (stripEnds isPyWS)

/-- `p.rsplit('.', 1)` unpacked into `(name, arch)`: split at the last dot;
a dotless string raises `ValueError` (this split is outside the `try`). -/
def rsplitDot1 (p : List Char) : Except String (List Char × List Char) :=
  if '.' ∈ p then
    Except.ok ((p.reverse.dropWhile (· ≠ '.')).drop 1 |>.reverse,
               (p.reverse.takeWhile (· ≠ '.')).reverse)
  else Except.error "ValueError: not enough values to unpack"

/-- `ver.split(':', 1)` then keep the part after the colon if any. -/
def stripEpoch (ver : List Char) : List Char :=
  if ':' ∈ ver then (ver.dropWhile (· ≠ ':')).drop 1 else ver

/-- Python `str.startswith` on lists. -/
def startsWith (pre s : List Char) : Bool :=
  List.isPrefixOf pre s

/-- Classification of one `dnf list --installed` output line (lines
250-272): `none` for a line with fewer than three tokens (the `ValueError`
from the first unpacking is caught), otherwise the normalised
`name-version.arch` id together with the bare package name. -/
def installedLineId (line : List Char) :
    Except String (Option (List Char × List Char)) :=
  match pySplitWS line with
  | p :: ver :: _ :: _ =>
      (rsplitDot1 p).map fun na =>
        some (na.1 ++ "-".toList ++ stripEpoch ver ++ ".".toList ++ na.2, na.1)
  | _ => Except.ok none

/-- One iteration of the residual-classification loop of `offline_update`
(lines 250-272). -/
def classifyStep (withDeferredUpdata : Bool) (updataUpdateMode : List Char)
    (manifestSet : List (List Char))
    (acc : List (List Char) × List (List Char)) (line : List Char) :
    Except String (List (List Char) × List (List Char)) :=
  (installedLineId line).map fun idn =>
    match idn with
    | none => acc
    | some (pkg, name) =>
        if withDeferredUpdata && startsWith "updata".toList name then
          if updataUpdateMode = "deferred_removal".toList then
            (acc.1, acc.2 ++ [pkg])
          else acc
        else if !manifestSet.isEmpty && !manifestSet.contains pkg then
          (acc.1 ++ [pkg], acc.2)
        else acc

/-- The residual-classification loop of `offline_update` (lines 245-272):
walk the installed-package listing and return the `residual` and
`r_deferred_residual` lists. -/
def classifyInstalled (withDeferredUpdata : Bool) (updataUpdateMode : List Char)
    (manifestSet : List (List Char)) (outLines : List (List Char)) :
    Except String (List (List Char) × List (List Char)) :=
  outLines.foldlM (classifyStep withDeferredUpdata updataUpdateMode manifestSet)
    ([], [])

/-- The updata-deferral partitioning of the downloaded package list (lines
199-221): returns the remaining list, the deferred list, and the possibly
switched update mode.  `Path(p).name` is the basename after the last
slash. -/
def partitionDeferred (mode0 : List Char) (r : List (List Char)) :
    List (List Char) × List (List Char) × List Char :=
  r.foldl (fun acc p =>
    let name := (p.reverse.takeWhile (· ≠ '/')).reverse
    if !startsWith "updata-".toList name then (acc.1 ++ [p], acc.2.1, acc.2.2)
    else
      (acc.1, acc.2.1 ++ [p],
        if acc.2.2 = "deferred_removal".toList then "deferred_downgrade".toList
        else acc.2.2)) ([], [], mode0)

/-- `offline_update` (phase 2 of `dnf-install`).  `tempfilesRead` models
`json.load(symlink/tempfiles.json)` (`none`: the read failed).  Returns the
final state together with the `residual` list (so the removal behaviour can
be stated). -/
def offlineUpdate (runCmd : RunCmd) (tempfilesRead : Option (List (List Char)))
    (isSudoRequired : Bool) (stepUpdataUpdate : Option (List Char))
    (st : ExecState) : Except String (ExecState × List (List Char)) :=
  let r0 : Option (List (List Char)) := tempfilesRead
  (if isSudoRequired then
    (runCmd ["sudo".toList, "rm".toList, "/system-update".toList]).map fun _ => ()
   else Except.ok ()).bind fun _ =>
  let st1 : ExecState := { st with sentinel := none }
  let updataUpdateMode :=
    match stepUpdataUpdate with
    | none => "default".toList
    | some m => m
  let withDeferredUpdata :=
    updataUpdateMode = "deferred_downgrade".toList ||
      updataUpdateMode = "deferred_removal".toList
  let part :=
    match r0 with
    | some r =>
        if withDeferredUpdata && !r.isEmpty then
          let q := partitionDeferred updataUpdateMode r
          (some q.1, q.2.1, q.2.2)
        else (some r, [], updataUpdateMode)
    | none => (none, [], updataUpdateMode)
  let rMain := part.1
  let rDeferredUpdate := part.2.1
  let mode := part.2.2
  (match rMain with
   | some r =>
      if !r.isEmpty then
        (runCmd (sudoPrefix isSudoRequired ++
          ["dnf".toList, "install".toList, "--assumeyes".toList,
           "--allowerasing".toList, "--setopt".toList, "keepcache=True".toList]
          ++ r)).map fun _ => ()
      else Except.ok ()
   | none => Except.ok ()).bind fun _ =>
  (runCmd (sudoPrefix isSudoRequired ++ ["ldconfig".toList])).bind fun _ =>
  let manifestSet := manifestSetOf st1.manifestTxt
  (runCmd (sudoPrefix isSudoRequired ++
      ["dnf".toList, "list".toList, "--installed".toList])).bind fun outLines =>
  (classifyInstalled withDeferredUpdata mode manifestSet outLines).bind
    fun residuals =>
  (if !residuals.1.isEmpty then
    (runCmd (sudoPrefix isSudoRequired ++
      ["dnf".toList, "remove".toList, "--assumeyes".toList,
       "--allowerasing".toList] ++ residuals.1)).map fun _ => ()
   else Except.ok ()).bind fun _ =>
  (runCmd (sudoPrefix isSudoRequired ++ ["ldconfig".toList])).bind fun _ =>
  (if withDeferredUpdata then
    (if !rDeferredUpdate.isEmpty then
      (runCmd (sudoPrefix isSudoRequired ++
        ["dnf".toList, "install".toList, "--assumeyes".toList,
         "--allowerasing".toList, "--setopt".toList, "keepcache=True".toList]
        ++ rDeferredUpdate)).map fun _ => ()
     else Except.ok ()).bind fun _ =>
    (if !residuals.2.isEmpty then
      (runCmd (sudoPrefix isSudoRequired ++
        ["dnf".toList, "remove".toList, "--assumeyes".toList,
         "--allowerasing".toList] ++ residuals.2)).map fun _ => ()
     else Except.ok ())
   else Except.ok ()).bind fun _ =>
  (runCmd (sudoPrefix isSudoRequired ++
      ["dnf".toList, "clean".toList, "packages".toList,
       "--assumeyes".toList])).map fun _ =>
  -- `if manifest: manifest.unlink(...)`: only when the read succeeded
  (if st1.manifestTxt.isSome then { st1 with manifestTxt := none } else st1,
   residuals.1)

/-- What executing one `dnf-install` step does, seen from the main loop. -/
inductive DnfResult where
  | returned
  | raisedExit
  | completed (residual : List (List Char))
  | failed (e : String)
deriving DecidableEq, Repr

/-- `do_dnf_install`: an early return under `--reboot-only`, phase 1 plus
`raise ExitForOfflineUpdate()` when the `/system-update` symlink is absent,
phase 2 when it is present. -/
def doDnfInstall (rebootOnly : Bool) (runCmd : RunCmd)
    (httpGetLines : List Char → Option (List (List Char)))
    (tempfilesRead : Option (List (List Char))) (isSudoRequired : Bool)
    (stepVersionFileUrl : List Char) (stepUpdataUpdate : Option (List Char))
    (dnfWorkDir : List Char) (st : ExecState) : ExecState × DnfResult :=
  if rebootOnly then (st, .returned)
  else if st.sentinel.isNone then
    match downloadAllPackages runCmd httpGetLines isSudoRequired
        stepVersionFileUrl dnfWorkDir st with
    | .ok st' => (st', .raisedExit)
    | .error e => (st, .failed e)
  else
    match offlineUpdate runCmd tempfilesRead isSudoRequired stepUpdataUpdate st with
    | .ok (st', residual) => (st', .completed residual)
    | .error e => (st, .failed e)

/-- `do_reboot_system`: a no-op under `--avoid-reboot`, otherwise
`systemctl isolate reboot.target`, with a failure becoming
`RebootFailedError`. -/
def doRebootSystem (avoidReboot : Bool) (runCmd : RunCmd)
    (isSudoRequired : Bool) : Except String Unit :=
  if avoidReboot then Except.ok ()
  else
    match runCmd (sudoPrefix isSudoRequired ++
        ["systemctl".toList, "isolate".toList, "reboot.target".toList]) with
    | .ok _ => Except.ok ()
    | .error e => Except.error e

/-- How the main loop leaves a step: continue to the next step, terminate
the process via `sys.exit`, or crash on an unhandled exception. -/
inductive StepEnd where
  | next
  | exitCode (n : Nat)
  | crashed (e : String)
deriving DecidableEq, Repr

/-- The main loop's treatment of one `dnf-install` step (lines 549-566):
`ExitForOfflineUpdate` is handled by `do_reboot_system` followed by
`sys.exit(0)`; a `RebootFailedError` raised inside that handler is not
caught and crashes the process. -/
def execDnfInstallStep (rebootOnly avoidReboot : Bool) (runCmd : RunCmd)
    (httpGetLines : List Char → Option (List (List Char)))
    (tempfilesRead : Option (List (List Char))) (isSudoRequired : Bool)
    (stepVersionFileUrl : List Char) (stepUpdataUpdate : Option (List Char))
    (dnfWorkDir : List Char) (st : ExecState) : ExecState × StepEnd :=
  match doDnfInstall rebootOnly runCmd httpGetLines tempfilesRead
      isSudoRequired stepVersionFileUrl stepUpdataUpdate dnfWorkDir st with
  | (st', .returned) => (st', .next)
  | (st', .completed _) => (st', .next)
  | (st', .raisedExit) =>
      match doRebootSystem avoidReboot runCmd isSudoRequired with
      | .ok _ => (st', .exitCode 0)
      | .error e => (st', .crashed e)
  | (st', .failed e) => (st', .crashed e)

/-- The `action` discriminator of a step. -/
def Step.actionTag : Step → String
  | .nop _ => "nop"
  | .manageRepos _ _ _ _ => "manage-repos"
  | .dnfInstall _ _ _ => "dnf-install"
  | .rebootSystem => "reboot-system"
  | .runInstaller _ _ _ _ => "run-installer"
  | .recoverSystem _ _ _ _ _ => "recover-system"

/-! ## Well-formedness predicates on version values

These describe the invariants that `VersionNumber.__init__` and
`from_string` guarantee; they are used as hypotheses of the theorems. -/

/-- A component is concrete (not the wildcard). -/
def Comp.isNum : Comp → Bool
  | .num _ => true
  | .wild => false

/-- A fully concrete version: no wildcard in any position. -/
def VN.concrete (v : VN) : Bool :=
  v.major.isNum && v.minor.isNum && v.patch.isNum &&
    (match v.beta with
     | none => true
     | some b => b.isNum)

/-- Some position carries the wildcard. -/
def VN.hasWild (v : VN) : Bool :=
  !v.major.isNum || !v.minor.isNum || !v.patch.isNum ||
    v.beta == some Comp.wild

/-- Invariants established by `VersionNumber.__init__`: beta and hotfix are
exclusive, a hotfix letter is lowercase, and a version with a hotfix has no
wildcard anywhere. -/
def VN.wf (v : VN) : Bool :=
  match v.hotfix with
  | none => true
  | some h => isLowerAZ h && v.beta.isNone && !v.hasWild

/-- Wildcards form a right-aligned contiguous suffix of the present
positions (ordered `major > minor > patch > beta`), as `from_string`
guarantees. -/
def VN.rightAligned (v : VN) : Bool :=
  (v.major.isNum || !v.minor.isNum) &&
  (v.minor.isNum || !v.patch.isNum) &&
  (v.patch.isNum ||
    (match v.beta with
     | none => true
     | some b => !b.isNum))

/-! ## Specification-side definitions

Each of the following definitions renders a (possibly amended) sentence of
the specification, to be compared with the corresponding definition
translated from the code. -/

/-- Pure three-way-usable comparison on components used by the
specification-side containment; only concrete components compare. -/
def compLtB : Comp → Comp → Bool
  | .num a, .num b => a < b
  | _, _ => false

/-- Pure `>` on components for the specification-side containment. -/
def compGtB : Comp → Comp → Bool
  | .num a, .num b => b < a
  | _, _ => false

/-- Pure `<` on the beta fields for the specification-side containment. -/
def optCompLtB : Option Comp → Option Comp → Bool
  | some a, some b => compLtB a b
  | _, _ => false

/-- Pure `>` on the beta fields for the specification-side containment. -/
def optCompGtB : Option Comp → Option Comp → Bool
  | some a, some b => compGtB a b
  | _, _ => false

/-- Modelled from the spec (lower boundary of range containment): test the
components from `major` downward up to the boundary's specificity — a
component strictly outside (below) the boundary rejects, a component equal
to the boundary descends to the next finer position, a component strictly
inside accepts without descending further; at the patch position the
hotfix letters are compared, an absent hotfix counting as strictly below a
present one. -/
def specLower (v bound : VN) : Bool :=
  if bound.specificity = 0 then true
  else if compLtB v.major bound.major then false
  else if v.major != bound.major then true
  else if bound.specificity = 1 then true
  else if compLtB v.minor bound.minor then false
  else if v.minor != bound.minor then true
  else if bound.specificity = 2 then true
  else if compLtB v.patch bound.patch then false
  else if v.patch != bound.patch then true
  else if hotfixRejectLower v.hotfix bound.hotfix then false
  else if bound.specificity = 3 then true
  else if optCompLtB v.beta bound.beta then false
  else true

/-- Modelled from the spec as amended: the upper boundary follows the same
descent rule, except that the descent from the major position to the minor
position is taken whenever both major components are truthy (nonzero),
not only when they are equal. -/
def specUpper (v bound : VN) : Bool :=
  if bound.specificity = 0 then true
  else if compGtB v.major bound.major then false
  else if !(v.major.truthy && bound.major.truthy) then true
  else if bound.specificity = 1 then true
  else if compGtB v.minor bound.minor then false
  else if v.minor != bound.minor then true
  else if bound.specificity = 2 then true
  else if compGtB v.patch bound.patch then false
  else if v.patch != bound.patch then true
  else if hotfixRejectUpper v.hotfix bound.hotfix then false
  else if bound.specificity = 3 then true
  else if optCompGtB v.beta bound.beta then false
  else true

/-- Modelled from the spec (amended containment against a two-boundary
range): a beta/stable mismatch with the lower boundary rejects, otherwise
both boundaries are checked. -/
def specContains (minV maxV v : VN) : Bool :=
  if v.beta.isNone != minV.beta.isNone then false
  else specLower v minV && specUpper v maxV

/-- Modelled from the spec (amended): the package-manager `latest.txt` URL,
with the flavor path component before the `versions` component. -/
def amendedLatestUrl (baseUrl releaseLine flavor : List Char) : List Char :=
  baseUrl ++ "/".toList ++ releaseLine ++ "/".toList ++ flavor ++
    "/versions/latest.txt".toList

/-- Modelled from the spec (amended): the package-manager manifest URL,
with the flavor path component before the `versions` component. -/
def amendedVersionFileUrl (baseUrl releaseLine flavor : List Char) (v : VN) :
    List Char :=
  baseUrl ++ "/".toList ++ releaseLine ++ "/".toList ++ flavor ++
    "/versions/V".toList ++ v.toChars ++ ".version".toList

/-- Modelled from the spec: `pick_best(doc, S)` returns the highest-rank
element of `S ∩ rank`, the rank list being ordered from least to most
preferred. -/
def pickBestSpec (rank : List (List Char)) (required : List (List Char)) :
    Option (List Char) :=
  (rank.filter (required.contains ·)).getLast?

/-- A non-empty string of decimal digits. -/
def DigitStr (s : List Char) : Bool :=
  !s.isEmpty && s.all isDigitChar

/-- A well-formed version-string component: digits or the sole wildcard. -/
def CompStr (s : List Char) : Bool :=
  DigitStr s || s == ['*']

/-- Assemble a version string from components: optional `V` prefix, dotted
components, the optional hotfix letter glued to the third component, and
the optional beta component. -/
def buildVersionInput (useV : Bool) (c1 c2 c3 : List Char) (hot : Option Char)
    (c4 : Option (List Char)) : List Char :=
  (if useV then ['V'] else []) ++ c1 ++ '.' :: c2 ++ '.' :: c3 ++
    (match hot with
     | some h => [h]
     | none => []) ++
    (match c4 with
     | some c4 => '.' :: c4
     | none => [])

/-- The version value denoted by well-formed components. -/
def compOfStr (s : List Char) : Comp :=
  if s == ['*'] then Comp.wild else Comp.num (charsVal s)

/-- The `parse_component` result denoted by a well-formed component. -/
def pyValOfStr (s : List Char) : PyVal :=
  if s == ['*'] then PyVal.star else PyVal.int (charsVal s)

/-! ## Concrete fixtures used by witnesses

The compatibility document below is the one used by the repository's own
`_test_extended_compatibilities`. -/

/-- The extended-compatibility test document of strbo_compatibility.py. -/
def fixtureCompatDoc : CompatDoc :=
  ⟨[("3-r0".toList, [VrangeSpec.vstr "3.0.*".toList, VrangeSpec.vstr "3.0.*.*".toList]),
    ("3-r1".toList, [VrangeSpec.vstr "3.0.*".toList, VrangeSpec.vstr "3.0.*.*".toList]),
    ("3-r2".toList, [VrangeSpec.vstr "3.1.*".toList, VrangeSpec.vstr "3.1.*.*".toList,
                     VrangeSpec.vstr "4.*.*".toList, VrangeSpec.vstr "4.*.*.*".toList])],
   ["3-r0".toList, "3-r1".toList, "3-r2".toList]⟩

/-- Version 2.7.4. -/
def vn274 : VN := ⟨Comp.num 2, Comp.num 7, Comp.num 4, none, none⟩

/-- Version 3.0.2. -/
def vn302 : VN := ⟨Comp.num 3, Comp.num 0, Comp.num 2, none, none⟩

/-- Planner arguments asking to switch from release line `V2` to `V3`. -/
def fixtureArgs : PlannerArgs :=
  ⟨"b".toList, some ⟨Comp.num 2, Comp.num 0, Comp.num 0, none, none⟩,
   some "V3".toList, some "stable".toList, false, false, false, "m".toList⟩

/-- Planner environment for the recovery-path fixture. -/
def fixtureEnv : PlannerEnv :=
  ⟨fun _ => FileRead.fileNotFound, fun _ => none, fun _ => none,
   some ⟨[("r1".toList, [VrangeSpec.vstr "2.*.*".toList])], ["r1".toList]⟩,
   some (some ⟨Comp.num 1, Comp.num 0, Comp.num 0, none, none⟩),
   some ⟨Comp.num 2, Comp.num 0, Comp.num 0, none, none⟩, fun _ => true⟩

/-- The plan the recovery-path fixture produces. -/
def fixturePlan : List Step :=
  [Step.nop "1.0".toList,
   Step.runInstaller "V3".toList "2.0.0".toList "stable".toList
     (installerUrlOf "b".toList "V3".toList "m".toList "r1".toList),
   Step.recoverSystem "V3".toList "2.0.0".toList "stable".toList false none]

/-! ## Supporting lemmas -/

theorem find?_eq_head_filter {α : Type} (p : α → Bool) (l : List α) :
    l.find? p = (l.filter p).head? := by
  induction l with
  | nil => rfl
  | cons x xs ih =>
      cases hp : p x with
      | true => rw [List.find?_cons_of_pos _ hp, List.filter_cons_of_pos hp, List.head?_cons]
      | false => rw [List.find?_cons_of_neg _ (by simp [hp]), List.filter_cons_of_neg (by simp [hp]), ih]

theorem find?_reverse_eq_getLast_filter {α : Type} (p : α → Bool) (l : List α) :
    l.reverse.find? p = (l.filter p).getLast? := by
  rw [find?_eq_head_filter, List.filter_reverse, List.head?_reverse]

theorem installerUrl_has_rsysimg_suffix (b line m best : List Char) :
    List.isSuffixOf ("strbo-rsysimg-".toList ++ best ++ ".bin".toList)
      (installerUrlOf b line m best) = true := by
  rw [List.isSuffixOf_iff_suffix]
  refine ⟨b ++ "/".toList ++ line ++ "/recovery-system.".toList ++ m ++ ['/'], ?_⟩
  simp [installerUrlOf, List.append_assoc]

/-! ## Claims -/

/-- C7 counterexample: the claim says comparing with `None` never raises,
but `1.2.3 < None` evaluates `None.major` and raises `AttributeError`. -/
theorem C7_counterexample :
    VN.ltPy ⟨Comp.num 1, Comp.num 2, Comp.num 3, none, none⟩ none =
      Except.error "AttributeError: NoneType has no attribute major" := rfl

/-- C7 (amended): for every version number `v`, `v == None` evaluates to
`False` without raising; `v < None`, however, does not evaluate to any
result but raises an `AttributeError`. -/
theorem C7_eq_none_false_and_lt_none_raises :
    ∀ v : VN, VN.eqPy v none = false ∧ ∃ e, VN.ltPy v none = Except.error e :=
  fun _ => ⟨rfl, ⟨_, rfl⟩⟩

/-- C4 counterexample: the claim says reading immediately after
`write_var("n", "x")` yields `"x"`, but `write_var` appends a newline via
`print` and `read_var` does not trim, so the read yields `"x\n"`. -/
theorem C4_counterexample :
    readVar (writeVar (fun _ => FileRead.fileNotFound) "n".toList
        (some "x".toList)).1 "n".toList ≠ some "x".toList := by
  decide

/-- C4 (amended): for every name naming a readable file, `read_var` returns
the file's raw, untrimmed content (and `None` when the file is missing or
unreadable, or the name is empty).  `write_var` writes the value followed
by a newline whenever the name is non-empty and the value is not `None`,
so reading immediately after writing yields the written value followed by
a newline. -/
theorem C4_read_write_untrimmed :
    ∀ (fs : VarsFS) (name value s : List Char), name ≠ [] →
      (fs name = FileRead.content s → readVar fs name = some s) ∧
      readVar (writeVar fs name (some value)).1 name = some (value ++ ['\n']) ∧
      (writeVar fs name (some value)).2 = true ∧
      (fs name = FileRead.fileNotFound → readVar fs name = none) ∧
      writeVar fs name none = (fs, false) ∧
      readVar fs [] = none := by
  intro fs name value s hne
  have hemp : name.isEmpty = false := by
    cases name with
    | nil => exact absurd rfl hne
    | cons c cs => rfl
  refine ⟨fun h => ?_, ?_, ?_, fun h => ?_, ?_, rfl⟩
  · simp [readVar, hemp, h]
  · simp [readVar, writeVar, hemp]
  · simp [writeVar, hemp]
  · simp [readVar, hemp, h]
  · simp [writeVar, hemp]

/-- C4 witness: reading right after writing `"x"` under name `"n"` yields
`"x\n"`. -/
theorem C4_witness :
    readVar (writeVar (fun _ => FileRead.fileNotFound) "n".toList
        (some "x".toList)).1 "n".toList = some ("x".toList ++ ['\n']) :=
  (C4_read_write_untrimmed (fun _ => FileRead.fileNotFound) "n".toList
    "x".toList [] (by decide)).2.1

/-- C3 counterexample: with base URL `b`, release line `l` and flavor
`beta`, the planner resolves the latest version from
`b/l/beta/versions/latest.txt` and emits
`b/l/beta/versions/V2.0.0.version` — the flavor component precedes
`versions`, not the other way around as claimed. -/
theorem C3_counterexample :
    handleVersionChange ⟨Comp.num 1, Comp.num 0, Comp.num 0, none, none⟩
        (some "1.0".toList) none false "b/l".toList (some "beta".toList)
        (fun u => if u = "b/l/beta/versions/latest.txt".toList
                  then some "2.0.0".toList else none)
        (fun _ => some "nvra updata 1.0".toList) =
      Except.ok (some (Step.dnfInstall "2.0.0".toList
        "b/l/beta/versions/V2.0.0.version".toList none)) ∧
    "b/l/beta/versions/V2.0.0.version".toList ≠
      "b/l/versions/beta/V2.0.0.version".toList := by
  constructor
  · rfl
  · decide

/-- C3 (amended): in both URLs of the package-manager path the flavor
component precedes the `versions` component: the latest version is
resolved from `{base}/{line}/{flavor-or-"stable"}/versions/latest.txt`
(only that URL is consulted), and the emitted `dnf-install` step's
`version_file_url` is `{base}/{line}/{flavor}/versions/V{version}.version`. -/
theorem C3_urls_flavor_before_versions :
    ∀ (baseUrl releaseLine flavor repoUrl : List Char) (v currentVersion : VN)
      (updv : Option (List Char)) (force : Bool) (tf0 : Option (List Char))
      (f g mg : List Char → Option (List Char)),
      (latestTxtUrl (baseUrl ++ "/".toList ++ releaseLine) flavor =
        amendedLatestUrl baseUrl releaseLine flavor) ∧
      (versionFileUrlOf (baseUrl ++ "/".toList ++ releaseLine) flavor v =
        amendedVersionFileUrl baseUrl releaseLine flavor v) ∧
      (f (latestTxtUrl repoUrl (normFlavor tf0)) =
          g (latestTxtUrl repoUrl (normFlavor tf0)) →
        handleVersionChange currentVersion updv none force repoUrl tf0 f mg =
          handleVersionChange currentVersion updv none force repoUrl tf0 g mg) ∧
      (∀ st, handleVersionChange currentVersion updv none force repoUrl tf0 f mg =
          Except.ok (some st) →
        ∃ tv upd, st = Step.dnfInstall tv.toChars
          (versionFileUrlOf repoUrl (normFlavor tf0) tv) upd) := by
  intro baseUrl releaseLine flavor repoUrl v currentVersion updv force tf0 f g mg
  refine ⟨?_, ?_, fun hfg => ?_, fun st hok => ?_⟩
  · simp [latestTxtUrl, amendedLatestUrl]
  · simp [versionFileUrlOf, amendedVersionFileUrl]
  · simp only [handleVersionChange, readLatestTxt, hfg]
  · revert hok
    simp only [handleVersionChange]
    cases hl : readLatestTxt f (latestTxtUrl repoUrl (normFlavor tf0)) with
    | none => intro h; exact absurd h (by simp)
    | some tv =>
        simp only []
        by_cases he : (eqVN tv currentVersion && !force) = true
        · rw [if_pos he]; intro h; exact absurd h (by simp)
        · rw [if_neg he]
          intro h
          rcases hby : getRequestedUpdataVersion mg
              (versionFileUrlOf repoUrl (normFlavor tf0) tv) with e | nv
          · rw [hby] at h; simp [Except.bind] at h
          · rw [hby] at h
            simp only [Except.bind] at h
            rcases hvc : versionCompare nv updv with e2 | cmp
            · rw [hvc] at h; simp [Except.map] at h
            · rw [hvc] at h
              simp only [Except.map] at h
              by_cases hcmp : cmp < 0
              · rw [if_pos hcmp] at h
                exact ⟨tv, _, by injection h with h'; injection h' with h''; exact h''.symm⟩
              · rw [if_neg hcmp] at h
                exact ⟨tv, none, by injection h with h'; injection h' with h''; exact h''.symm⟩

/-- C2: `ensure_recovery_system_compatibility` raises a fatal error on a
missing document; it returns `None` exactly when the revisions compatible
with the target version intersect those compatible with the installed
recovery version and the update is not forced; otherwise it returns a
`run-installer` step whose `installer_url` ends in
`strbo-rsysimg-<best>.bin`, `best` being the highest-rank compatible
revision (the last element of `rank` among the compatible ones), and it
raises `No recovery system for <tv> found` when no ranked revision is
compatible. -/
theorem C2_ensure_recovery_compatibility :
    ∀ (doc : CompatDoc) (force : Bool) (baseUrl machineName : List Char)
      (rv : Option VN) (line : List Char) (tv : VN) (flavor : List Char)
      (req inst : List (List Char)),
      determineCompatibleRsys doc.compatibility (some tv) = Except.ok req →
      determineCompatibleRsys doc.compatibility rv = Except.ok inst →
      (ensureRecoverySystemCompatibility none force baseUrl machineName rv
          line tv flavor =
        Except.error "File strbo-recovery-compatibility.json missing") ∧
      (ensureRecoverySystemCompatibility (some doc) force baseUrl machineName
          rv line tv flavor = Except.ok none ↔
        req.any (inst.contains ·) = true ∧ force = false) ∧
      ((req.any (inst.contains ·) && !force) = false →
        (∀ best, pickBestSpec doc.rank req = some best →
          ensureRecoverySystemCompatibility (some doc) force baseUrl
              machineName rv line tv flavor =
            Except.ok (some (Step.runInstaller line tv.toChars flavor
              (installerUrlOf baseUrl line machineName best))) ∧
          List.isSuffixOf ("strbo-rsysimg-".toList ++ best ++ ".bin".toList)
            (installerUrlOf baseUrl line machineName best) = true) ∧
        (pickBestSpec doc.rank req = none →
          ensureRecoverySystemCompatibility (some doc) force baseUrl
              machineName rv line tv flavor =
            Except.error ("No recovery system for " ++ tv.toChars.asString ++
              " found"))) := by
  intro doc force baseUrl machineName rv line tv flavor req inst hreq hinst
  have hbody : ensureRecoverySystemCompatibility (some doc) force baseUrl
      machineName rv line tv flavor =
      (if req.any (inst.contains ·) && !force then Except.ok none
       else
        match doc.rank.reverse.find? (req.contains ·) with
        | none => Except.error ("No recovery system for " ++
            tv.toChars.asString ++ " found")
        | some best => Except.ok (some (Step.runInstaller line tv.toChars
            flavor (installerUrlOf baseUrl line machineName best)))) := by
    simp only [ensureRecoverySystemCompatibility]
    rw [hreq, hinst]
    rfl
  refine ⟨rfl, ?_, fun hc => ⟨fun best hbest => ?_, fun hnone => ?_⟩⟩
  · rw [hbody]
    by_cases hc : (req.any (inst.contains ·) && !force) = true
    · rw [if_pos hc]
      rw [Bool.and_eq_true, Bool.not_eq_true'] at hc
      exact ⟨fun _ => hc, fun _ => rfl⟩
    · rw [if_neg hc]
      rw [Bool.and_eq_true, Bool.not_eq_true'] at hc
      constructor
      · intro h
        cases hfind : doc.rank.reverse.find? (req.contains ·) <;>
          rw [hfind] at h <;> simp at h
      · intro h
        exact absurd h hc
  · rw [hbody, if_neg (by rw [hc]; exact Bool.false_ne_true),
      find?_reverse_eq_getLast_filter]
    rw [pickBestSpec] at hbest
    rw [hbest]
    exact ⟨rfl, installerUrl_has_rsysimg_suffix baseUrl line machineName best⟩
  · rw [hbody, if_neg (by rw [hc]; exact Bool.false_ne_true),
      find?_reverse_eq_getLast_filter]
    rw [pickBestSpec] at hnone
    rw [hnone]

/-- C2 witness: on the repository's own extended-compatibility document,
coming from 4.0.9 and targeting 3.0.2 yields the `3-r1` installer step. -/
theorem C2_witness :
    ensureRecoverySystemCompatibility (some fixtureCompatDoc) false
        "https://points.to.nowhere/updates".toList "raspberrypi".toList
        (some ⟨Comp.num 4, Comp.num 0, Comp.num 9, none, none⟩) "V3".toList
        vn302 "stable".toList =
      Except.ok (some (Step.runInstaller "V3".toList vn302.toChars
        "stable".toList (installerUrlOf "https://points.to.nowhere/updates".toList
          "V3".toList "raspberrypi".toList "3-r1".toList))) :=
  (((C2_ensure_recovery_compatibility fixtureCompatDoc false
      "https://points.to.nowhere/updates".toList "raspberrypi".toList
      (some ⟨Comp.num 4, Comp.num 0, Comp.num 9, none, none⟩) "V3".toList
      vn302 "stable".toList
      ["3-r0".toList, "3-r1".toList] ["3-r2".toList]
      rfl rfl).2.2 (by decide)).1 "3-r1".toList rfl).1

theorem bind_ok {α β : Type} {e : Except String α} {f : α → Except String β}
    {v : β} (h : e.bind f = Except.ok v) : ∃ a, e = Except.ok a ∧ f a = Except.ok v := by
  cases e with
  | error e => exact absurd h (by simp [Except.bind])
  | ok a => exact ⟨a, rfl, h⟩

theorem classifyInstalled_empty_manifest_fold (wd : Bool) (mode : List Char)
    (lines : List (List Char)) :
    ∀ (acc r : List (List Char) × List (List Char)),
      lines.foldlM (classifyStep wd mode []) acc = Except.ok r → r.1 = acc.1 := by
  induction lines with
  | nil =>
      intro acc r h
      have h' : Except.ok acc = Except.ok r := h
      injection h' with h'
      rw [← h']
  | cons x xs ih =>
      intro acc r h
      rw [List.foldlM_cons] at h
      rcases bind_ok (h : (classifyStep wd mode [] acc x).bind _ = _) with ⟨a, ha, hrest⟩
      have hacc : a.1 = acc.1 := by
        revert ha
        simp only [classifyStep]
        cases hline : installedLineId x with
        | error e => intro ha; exact absurd ha (by simp [Except.map])
        | ok idn =>
            simp only [Except.map]
            intro ha
            injection ha with ha
            subst ha
            rcases idn with _ | ⟨pkg, name⟩
            · rfl
            · dsimp only
              split
              · split <;> rfl
              · split
                · rename_i hcond
                  simp at hcond
                · rfl
      rw [← hacc]
      exact ih a r hrest

theorem classifyInstalled_empty_manifest (wd : Bool) (mode : List Char)
    (lines : List (List Char)) (r : List (List Char) × List (List Char))
    (h : classifyInstalled wd mode [] lines = Except.ok r) : r.1 = [] :=
  classifyInstalled_empty_manifest_fold wd mode lines ([], []) r h

/-- C10: in phase 2 of `dnf-install`, a failed read of the persisted
`manifest.txt` yields the empty manifest set, so no installed package is
classified residual and the removal invocation removes nothing; packages
are removed as residual only when the manifest was read successfully and
is non-empty. -/
theorem C10_manifest_read_failure_no_residual :
    ∀ (runCmd : RunCmd) (tfr : Option (List (List Char))) (isSudo : Bool)
      (upd : Option (List Char)) (st st' : ExecState) (res : List (List Char)),
      (st.manifestTxt = none →
        offlineUpdate runCmd tfr isSudo upd st = Except.ok (st', res) → res = []) ∧
      (offlineUpdate runCmd tfr isSudo upd st = Except.ok (st', res) → res ≠ [] →
        ∃ lines, st.manifestTxt = some lines ∧ lines ≠ []) := by
  intro runCmd tfr isSudo upd st st' res
  have main : ∀ (h : offlineUpdate runCmd tfr isSudo upd st = Except.ok (st', res)),
      res ≠ [] → manifestSetOf st.manifestTxt ≠ [] := by
    intro h hne
    intro hempty
    revert h
    simp only [offlineUpdate]
    intro h
    rcases bind_ok h with ⟨_, _, h⟩
    rcases bind_ok h with ⟨_, _, h⟩
    rcases bind_ok h with ⟨_, _, h⟩
    rcases bind_ok h with ⟨out, _, h⟩
    rcases bind_ok h with ⟨residuals, hcl, h⟩
    rcases bind_ok h with ⟨_, _, h⟩
    rcases bind_ok h with ⟨_, _, h⟩
    rcases bind_ok h with ⟨_, _, h⟩
    have hres : res = residuals.1 := by
      revert h
      cases hlast : runCmd (sudoPrefix isSudo ++
          ["dnf".toList, "clean".toList, "packages".toList, "--assumeyes".toList]) with
      | error e => simp [Except.map]
      | ok _ =>
          simp only [Except.map]
          intro h
          injection h with h
          exact (congrArg Prod.snd h).symm
    rw [hempty] at hcl
    have := classifyInstalled_empty_manifest _ _ _ _ hcl
    exact hne (hres.trans this)
  refine ⟨fun hnone h => ?_, fun h hne => ?_⟩
  · by_contra hne
    have := main h hne
    rw [hnone] at this
    exact this rfl
  · have hm := main h hne
    cases hmt : st.manifestTxt with
    | none => rw [hmt] at hm; exact absurd rfl hm
    | some lines =>
        refine ⟨lines, rfl, fun hl => ?_⟩
        rw [hmt, hl] at hm
        exact hm rfl

/-- C10 witness: a phase-2 run whose manifest read fails removes no
residual package. -/
theorem C10_witness :
    ∃ r : ExecState × List (List Char),
      offlineUpdate (fun _ => Except.ok []) none false none
        ⟨some "/d".toList, none⟩ = Except.ok r ∧ r.2 = [] := by
  refine ⟨(⟨none, none⟩, []), rfl, ?_⟩
  exact (C10_manifest_read_failure_no_residual (fun _ => Except.ok []) none false
    none ⟨some "/d".toList, none⟩ ⟨none, none⟩ []).1 rfl rfl

theorem downloadAllPackages_sets_sentinel (runCmd : RunCmd)
    (hg : List Char → Option (List (List Char))) (isSudo : Bool)
    (url wd : List Char) (st st' : ExecState)
    (h : downloadAllPackages runCmd hg isSudo url wd st = Except.ok st') :
    st'.sentinel = some wd := by
  revert h
  simp only [downloadAllPackages]
  intro h
  rcases bind_ok h with ⟨_, _, h⟩
  rcases bind_ok h with ⟨_, _, h⟩
  revert h
  cases hg url with
  | none => intro h; exact absurd h (by simp)
  | some lines =>
      intro h
      rcases bind_ok h with ⟨r, _, h⟩
      rcases bind_ok h with ⟨_, _, h⟩
      revert h
      cases hln : (if isSudo then
          (runCmd ["sudo".toList, "ln".toList, "-s".toList, wd,
            "/system-update".toList]).map fun _ => ()
        else Except.ok ()) with
      | error e => simp [Except.map]
      | ok u =>
          simp only [Except.map]
          intro h
          injection h with h
          rw [← h]

/-- C5 counterexample: under `--reboot-only` the `dnf-install` step returns
without raising even though the `/system-update` sentinel is absent, so
"raises `ExitForOfflineUpdate` iff the sentinel is absent" fails. -/
theorem C5_counterexample :
    doDnfInstall true (fun _ => Except.ok []) (fun _ => some []) none false
        "u".toList none "/d".toList ⟨none, none⟩ =
      (⟨none, none⟩, DnfResult.returned) ∧
    DnfResult.returned ≠ DnfResult.raisedExit := by
  exact ⟨rfl, by decide⟩

/-- C5 (amended): under `--reboot-only` the step returns immediately
without raising.  Otherwise, provided the phase-1 download actions
succeed, the step raises `ExitForOfflineUpdate` exactly when the
`/system-update` sentinel is absent — phase 1 having created the sentinel
pointing at the dnf work directory — and the main loop handles the raise
by performing the system reboot and exiting with status 0 (when the reboot
command itself succeeds); with the sentinel present, phase 2 runs instead
and the step never yields `ExitForOfflineUpdate`. -/
theorem C5_offline_update_phases :
    ∀ (runCmd : RunCmd) (hg : List Char → Option (List (List Char)))
      (tfr : Option (List (List Char))) (isSudo : Bool) (url : List Char)
      (upd : Option (List Char)) (wd : List Char) (st st' : ExecState)
      (avoidReboot : Bool),
      (doDnfInstall true runCmd hg tfr isSudo url upd wd st = (st, .returned)) ∧
      (st.sentinel = none →
        downloadAllPackages runCmd hg isSudo url wd st = Except.ok st' →
        doDnfInstall false runCmd hg tfr isSudo url upd wd st = (st', .raisedExit) ∧
        st'.sentinel = some wd) ∧
      (st.sentinel.isSome →
        (doDnfInstall false runCmd hg tfr isSudo url upd wd st).2 ≠ .raisedExit) ∧
      (st.sentinel = none →
        downloadAllPackages runCmd hg isSudo url wd st = Except.ok st' →
        doRebootSystem avoidReboot runCmd isSudo = Except.ok () →
        execDnfInstallStep false avoidReboot runCmd hg tfr isSudo url upd wd st =
          (st', StepEnd.exitCode 0)) := by
  intro runCmd hg tfr isSudo url upd wd st st' avoidReboot
  refine ⟨rfl, fun hs hdl => ?_, fun hs => ?_, fun hs hdl hrb => ?_⟩
  · constructor
    · simp only [doDnfInstall, if_neg (Bool.false_ne_true), hs]
      rw [hdl]
      rfl
    · exact downloadAllPackages_sets_sentinel runCmd hg isSudo url wd st st' hdl
  · simp only [doDnfInstall, if_neg (Bool.false_ne_true)]
    rw [Option.isSome_iff_exists] at hs
    rcases hs with ⟨t, ht⟩
    rw [ht]
    simp only [Option.isNone_some]
    cases offlineUpdate runCmd tfr isSudo upd st with
    | ok p => simp
    | error e => simp
  · simp only [execDnfInstallStep, doDnfInstall, if_neg (Bool.false_ne_true), hs]
    rw [hdl, hrb]
    rfl

/-- C5 witness: a concrete phase-1 run with the sentinel absent, ending in
reboot and exit status 0. -/
theorem C5_witness :
    execDnfInstallStep false false (fun _ => Except.ok [])
        (fun _ => some []) none false "u".toList none "/d".toList
        ⟨none, none⟩ =
      (⟨some "/d".toList, some []⟩, StepEnd.exitCode 0) :=
  (C5_offline_update_phases (fun _ => Except.ok []) (fun _ => some []) none
    false "u".toList none "/d".toList ⟨none, none⟩
    ⟨some "/d".toList, some []⟩ false).2.2.2 rfl rfl rfl

theorem mapError_ok {α : Type} {x : Except String α} {f : String → PlanAbort}
    {v : α} (h : x.mapError f = Except.ok v) : x = Except.ok v := by
  cases x with
  | error e => exact absurd h (by simp [Except.mapError])
  | ok a => simpa [Except.mapError] using h

theorem mapError_bind_ok {α β : Type} {x : Except String α}
    {f : String → PlanAbort} {g : α → Except PlanAbort β} {v : β}
    (h : (x.mapError f).bind g = Except.ok v) :
    ∃ a, x = Except.ok a ∧ g a = Except.ok v := by
  cases x with
  | error e => exact absurd h (by simp [Except.mapError, Except.bind])
  | ok a => exact ⟨a, rfl, h⟩

theorem hvc_ok_some_shape {cv : VN} {uv : Option (List Char)} {tv0 : Option VN}
    {fvc : Bool} {repo : List Char} {tf0 : Option (List Char)}
    {f mg : List Char → Option (List Char)} {s : Step}
    (h : handleVersionChange cv uv tv0 fvc repo tf0 f mg = Except.ok (some s)) :
    ∃ a b c, s = Step.dnfInstall a b c := by
  revert h
  simp only [handleVersionChange]
  cases (match tv0 with
         | none => readLatestTxt f (latestTxtUrl repo (normFlavor tf0))
         | some tv => some tv : Option VN) with
  | none => intro h; exact absurd h (by simp)
  | some tv =>
      dsimp only
      by_cases he : (eqVN tv cv && !fvc) = true
      · rw [if_pos he]; intro h; exact absurd h (by simp)
      · rw [if_neg he]
        intro h
        rcases bind_ok h with ⟨nv, _, h⟩
        revert h
        cases versionCompare nv uv with
        | error e => simp [Except.map]
        | ok cmp =>
            simp only [Except.map]
            intro h
            injection h with h
            by_cases hcmp : cmp < 0
            · rw [if_pos hcmp] at h
              injection h with h
              exact ⟨_, _, _, h.symm⟩
            · rw [if_neg hcmp] at h
              injection h with h
              exact ⟨_, _, _, h.symm⟩

theorem ensure_ok_some_shape {doc : Option CompatDoc} {force : Bool}
    {b m : List Char} {rv : Option VN} {line : List Char} {tv : VN}
    {fl : List Char} {s : Step}
    (h : ensureRecoverySystemCompatibility doc force b m rv line tv fl =
      Except.ok (some s)) : ∃ a c d e, s = Step.runInstaller a c d e := by
  revert h
  cases doc with
  | none => intro h; exact absurd h (by simp [ensureRecoverySystemCompatibility])
  | some doc =>
      simp only [ensureRecoverySystemCompatibility]
      intro h
      rcases bind_ok h with ⟨req, _, h⟩
      rcases bind_ok h with ⟨inst, _, h⟩
      revert h
      by_cases hc : (req.any (inst.contains ·) && !force) = true
      · rw [if_pos hc]; intro h; exact absurd h (by simp)
      · rw [if_neg hc]
        cases doc.rank.reverse.find? (req.contains ·) with
        | none => intro h; exact absurd h (by simp)
        | some best =>
            intro h
            injection h with h
            injection h with h
            exact ⟨_, _, _, _, h.symm⟩

theorem cps_shape {strategy : List Step} {baseUrl : List Char}
    {tv0 : Option VN} {tf0 uv mf : Option (List Char)} {mvn : VN}
    {trl : List Char} {vars : VarsFS}
    {lg mg : List Char → Option (List Char)} {plan : List Step}
    (h : computePackageManagerStrategy strategy baseUrl tv0 tf0 uv mf mvn trl
        vars lg mg = Except.ok plan) :
    ∃ (mr : Step) (opt : List Step),
      (∃ d e, mr = Step.manageRepos baseUrl trl d e) ∧
      (opt = [] ∨ ∃ a b c, opt = [Step.dnfInstall a b c]) ∧
      plan = strategy ++ [mr] ++ opt ++ [Step.rebootSystem] := by
  revert h
  simp only [computePackageManagerStrategy]
  intro h
  rcases hbo : handleVersionChange mvn uv tv0
      (handleRepoChanges baseUrl trl mf tf0 vars).2.2
      (baseUrl ++ "/".toList ++ trl)
      (handleRepoChanges baseUrl trl mf tf0 vars).2.1 lg mg with e | step2
  · rw [hbo] at h; exact absurd h (by simp [Except.map])
  · rw [hbo] at h
    simp only [Except.map] at h
    injection h with h
    cases step2 with
    | none =>
        refine ⟨(handleRepoChanges baseUrl trl mf tf0 vars).1, [],
          ⟨_, _, rfl⟩, Or.inl rfl, ?_⟩
        rw [← h, if_pos (by simp)]
        try simp [List.append_assoc]
    | some s =>
        rcases hvc_ok_some_shape hbo with ⟨a, b, c, hsx⟩
        refine ⟨(handleRepoChanges baseUrl trl mf tf0 vars).1, [s],
          ⟨_, _, rfl⟩, Or.inr ⟨a, b, c, by rw [hsx]⟩, ?_⟩
        rw [← h, if_pos (by simp)]
        try simp [List.append_assoc]

/-- C6: when the main-system version is readable and the target release
line (defaulted to the main version's) equals the main version's line with
`force_image_files` unset, the emitted plan comes from the package-manager
path and contains no `recover-system` and no `run-installer` step;
otherwise the plan comes from the recovery path, ends in `recover-system`,
and contains no `manage-repos`, `dnf-install`, or `reboot-system` step. -/
theorem C6_path_selection :
    ∀ (args : PlannerArgs) (thisVersion : List Char) (mainVN : VN)
      (mainLine : List Char) (mainFlavor : Option (List Char))
      (env : PlannerEnv) (plan : List Step),
      planMain args thisVersion mainVN mainLine mainFlavor env =
        Except.ok plan →
      (((match args.targetReleaseLine with
         | none => mainLine
         | some l => l) = mainLine ∧ args.forceImageFiles = false) →
        ∀ s ∈ plan, s.actionTag ≠ "recover-system" ∧
          s.actionTag ≠ "run-installer") ∧
      (¬ ((match args.targetReleaseLine with
           | none => mainLine
           | some l => l) = mainLine ∧ args.forceImageFiles = false) →
        (∃ pre a b c k u, plan = pre ++ [Step.recoverSystem a b c k u]) ∧
        ∀ s ∈ plan, s.actionTag ≠ "manage-repos" ∧
          s.actionTag ≠ "dnf-install" ∧ s.actionTag ≠ "reboot-system") := by
  intro args thisVersion mainVN mainLine mainFlavor env plan h
  revert h
  simp only [planMain]
  by_cases hc : ((match args.targetReleaseLine with
      | none => mainLine
      | some l => l) = mainLine ∧ args.forceImageFiles = false)
  · rw [if_pos (by simp [hc.1, hc.2])]
    intro h
    refine ⟨fun _ => ?_, fun hn => absurd hc hn⟩
    rcases cps_shape (mapError_ok h) with ⟨mr, opt, ⟨d, e, hmr⟩, hopt, hplan⟩
    intro s hs
    rw [hplan] at hs
    simp only [List.mem_append, List.mem_singleton] at hs
    rcases hs with ((hs | hs) | hs) | hs
    · subst hs; exact ⟨by simp [Step.actionTag], by simp [Step.actionTag]⟩
    · subst hs; rw [hmr]
      exact ⟨by simp [Step.actionTag], by simp [Step.actionTag]⟩
    · rcases hopt with hopt | ⟨a, b, c, hopt⟩
      · rw [hopt] at hs; exact absurd hs (List.not_mem_nil s)
      · rw [hopt] at hs
        rcases List.mem_singleton.mp hs with hs2
        subst hs2
        exact ⟨by simp [Step.actionTag], by simp [Step.actionTag]⟩
    · subst hs
      exact ⟨by simp [Step.actionTag], by simp [Step.actionTag]⟩
  · rw [if_neg (by
      intro hb
      rw [Bool.and_eq_true] at hb
      exact hc ⟨by simpa using hb.1, by simpa using hb.2⟩)]
    intro h
    refine ⟨fun hy => absurd hy hc, fun _ => ?_⟩
    rcases mapError_bind_ok h with ⟨tvf, _, h⟩
    revert h
    cases env.recoverySystemVersion with
    | none => intro h; exact absurd h (by simp)
    | some rvn =>
        intro h
        rcases mapError_bind_ok h with ⟨compatStep, hcs, h⟩
        revert h
        by_cases hnd : (match env.dataVersion with
            | none => true
            | some dvn => !eqVN dvn tvf.1) = true
        · rw [if_pos hnd]
          by_cases hu : env.urlExists (recoveryDataUrlOf args.baseUrl
              (match args.targetReleaseLine with
               | none => mainLine
               | some l => l) tvf.2 args.machineName tvf.1) = true
          · rw [if_pos hu]
            intro h
            injection h with h
            subst h
            constructor
            · exact ⟨_, _, _, _, _, _, rfl⟩
            · intro s hs
              simp only [List.append_assoc, List.mem_append,
                List.mem_singleton] at hs
              rcases hs with hs | hs | hs
              · subst hs
                exact ⟨by simp [Step.actionTag], by simp [Step.actionTag],
                  by simp [Step.actionTag]⟩
              · rcases hcso : compatStep with _ | cs
                · rw [hcso] at hs; exact absurd hs (List.not_mem_nil s)
                · rw [hcso] at hs
                  rcases List.mem_singleton.mp hs with hs2
                  subst hs2
                  rcases ensure_ok_some_shape (by rw [← hcso]; exact hcs) with
                    ⟨a, c, d, e, hcs2⟩
                  rw [hcs2]
                  exact ⟨by simp [Step.actionTag], by simp [Step.actionTag],
                    by simp [Step.actionTag]⟩
              · subst hs
                exact ⟨by simp [Step.actionTag], by simp [Step.actionTag],
                  by simp [Step.actionTag]⟩
          · rw [if_neg (by simpa using hu)]
            intro h
            exact absurd h (by simp)
        · rw [if_neg hnd]
          intro h
          injection h with h
          subst h
          constructor
          · exact ⟨_, _, _, _, _, _, rfl⟩
          · intro s hs
            simp only [List.append_assoc, List.mem_append,
              List.mem_singleton] at hs
            rcases hs with hs | hs | hs
            · subst hs
              exact ⟨by simp [Step.actionTag], by simp [Step.actionTag],
                by simp [Step.actionTag]⟩
            · rcases hcso : compatStep with _ | cs
              · rw [hcso] at hs; exact absurd hs (List.not_mem_nil s)
              · rw [hcso] at hs
                rcases List.mem_singleton.mp hs with hs2
                subst hs2
                rcases ensure_ok_some_shape (by rw [← hcso]; exact hcs) with
                  ⟨a, c, d, e, hcs2⟩
                rw [hcs2]
                exact ⟨by simp [Step.actionTag], by simp [Step.actionTag],
                  by simp [Step.actionTag]⟩
            · subst hs
              exact ⟨by simp [Step.actionTag], by simp [Step.actionTag],
                by simp [Step.actionTag]⟩

/-- C6 witness: a concrete planner run that switches release lines takes
the recovery path and ends in a `recover-system` step. -/
theorem C6_witness :
    ∃ pre a b c k u, fixturePlan = pre ++ [Step.recoverSystem a b c k u] :=
  ((C6_path_selection fixtureArgs "1.0".toList
    ⟨Comp.num 1, Comp.num 0, Comp.num 0, none, none⟩ "V2".toList none
    fixtureEnv fixturePlan rfl).2 (by decide)).1

theorem concrete_not_pattern (v : VN) (hv : v.concrete = true) :
    v.isPattern = false := by
  obtain ⟨vM, vm, vp, vb, vh⟩ := v
  rcases vM with a|_ <;> rcases vm with b|_ <;> rcases vp with c|_ <;>
    rcases vb with _|⟨d|_⟩ <;>
    simp_all [VN.concrete, VN.isPattern, Comp.isNum]

set_option maxHeartbeats 2000000 in
theorem lowerCheck_eq_spec (v bound : VN) (hv : v.concrete = true)
    (hb : bound.rightAligned = true) (hbeta : v.beta.isNone = bound.beta.isNone) :
    lowerCheck v bound = Except.ok (specLower v bound) := by
  obtain ⟨vM, vm, vp, vb, vh⟩ := v
  obtain ⟨bM, bm, bp, bb, bh⟩ := bound
  simp only [VN.concrete, VN.rightAligned, Comp.isNum, Bool.and_eq_true,
    Bool.or_eq_true] at hv hb
  rcases vM with a|_ <;> rcases vm with b|_ <;> rcases vp with c|_ <;>
    simp_all
  rcases bM with p|_ <;> rcases bm with q|_ <;> rcases bp with r|_ <;>
    rcases vb with _|⟨d|_⟩ <;> rcases bb with _|⟨t|_⟩ <;>
    simp_all [lowerCheck, specLower, VN.specificity, Comp.specCount, pyLtComp,
      pyLtOptComp, compLtB, optCompLtB, Except.bind, Except.map] <;>
    (repeat' (first | omega | rfl | (split <;> simp_all [Except.bind, Except.map])))

set_option maxHeartbeats 2000000 in
theorem upperCheck_eq_spec (v bound : VN) (hv : v.concrete = true)
    (hb : bound.rightAligned = true) (hbeta : v.beta.isNone = bound.beta.isNone) :
    upperCheck v bound = Except.ok (specUpper v bound) := by
  obtain ⟨vM, vm, vp, vb, vh⟩ := v
  obtain ⟨bM, bm, bp, bb, bh⟩ := bound
  simp only [VN.concrete, VN.rightAligned, Comp.isNum, Bool.and_eq_true,
    Bool.or_eq_true] at hv hb
  rcases vM with a|_ <;> rcases vm with b|_ <;> rcases vp with c|_ <;>
    simp_all
  rcases bM with p|_ <;> rcases bm with q|_ <;> rcases bp with r|_ <;>
    rcases vb with _|⟨d|_⟩ <;> rcases bb with _|⟨t|_⟩ <;>
    simp_all [upperCheck, specUpper, VN.specificity, Comp.specCount, pyGtComp,
      pyGtOptComp, compGtB, optCompGtB, Comp.truthy, Except.bind, Except.map] <;>
    (repeat' (first | omega | rfl | (split <;> simp_all [Except.bind, Except.map])))

/-- C1 counterexample: the claim's own example — the concrete version
1.2.4 against the range [1.0.0, 2.1.0] — is rejected by the code (and by
the doctest of `VersionRange.contains`), because the upper-boundary check
descends from major to minor when both majors are merely truthy. -/
theorem C1_counterexample :
    (fromVrange (VrangeSpec.vlist ["1.0.0".toList, "2.1.0".toList])).bind
        (fun r => (fromString "1.2.4".toList false).bind
          fun v => r.contains (some v)) =
      Except.ok false := rfl

/-- C1 (amended): for every concrete version `v` and every range whose max
boundary is present (boundaries being right-aligned patterns agreeing on
beta-ness, as `from_vrange` produces), `contains` first rejects on a
beta/stable mismatch with the lower boundary and then tests both
boundaries from major downward; the lower boundary follows the descent
rule — strictly outside rejects, equal descends, strictly inside accepts —
while the upper boundary descends from the major to the minor position
whenever both major components are truthy (nonzero), not only when they
are equal; hence 1.2.4 is not contained in [1.0.0, 2.1.0]. -/
theorem C1_contains_follows_amended_descent :
    ∀ (v minv maxv : VN), v.concrete = true → minv.rightAligned = true →
      maxv.rightAligned = true → minv.beta.isNone = maxv.beta.isNone →
      VRange.contains ⟨minv, some maxv⟩ (some v) =
        Except.ok (specContains minv maxv v) := by
  intro v minv maxv hv hmin hmax hmm
  have hp := concrete_not_pattern v hv
  simp only [VRange.contains, hp]
  rw [if_neg (by simp)]
  by_cases hbg : (v.beta.isNone != minv.beta.isNone) = true
  · rw [if_pos hbg, specContains, if_pos hbg]
  · rw [if_neg hbg]
    have hbeta : v.beta.isNone = minv.beta.isNone := by
      simpa using hbg
    rw [lowerCheck_eq_spec v minv hv hmin hbeta]
    simp only [Except.bind]
    by_cases hl : specLower v minv = true
    · rw [if_pos hl, upperCheck_eq_spec v maxv hv hmax (hbeta.trans hmm),
        specContains, if_neg hbg, hl]
      simp
    · rw [if_neg hl, specContains, if_neg hbg]
      rw [Bool.not_eq_true] at hl
      rw [hl]
      simp

/-- C1 witness: the amended descent rule evaluated on the claim's example,
where it yields "not contained". -/
theorem C1_witness :
    VRange.contains ⟨⟨Comp.num 1, Comp.num 0, Comp.num 0, none, none⟩,
        some ⟨Comp.num 2, Comp.num 1, Comp.num 0, none, none⟩⟩
      (some ⟨Comp.num 1, Comp.num 2, Comp.num 4, none, none⟩) =
      Except.ok (specContains
        ⟨Comp.num 1, Comp.num 0, Comp.num 0, none, none⟩
        ⟨Comp.num 2, Comp.num 1, Comp.num 0, none, none⟩
        ⟨Comp.num 1, Comp.num 2, Comp.num 4, none, none⟩) :=
  C1_contains_follows_amended_descent
    ⟨Comp.num 1, Comp.num 2, Comp.num 4, none, none⟩
    ⟨Comp.num 1, Comp.num 0, Comp.num 0, none, none⟩
    ⟨Comp.num 2, Comp.num 1, Comp.num 0, none, none⟩
    (by decide) (by decide) (by decide) (by decide)

/-- C3 witness: the amended URL equations at concrete arguments, and the
oracle-dependence conjunct discharged with identical oracles. -/
theorem C3_witness :
    latestTxtUrl ("b".toList ++ "/".toList ++ "l".toList) "beta".toList =
      amendedLatestUrl "b".toList "l".toList "beta".toList :=
  (C3_urls_flavor_before_versions "b".toList "l".toList "beta".toList "r".toList
    ⟨Comp.num 1, Comp.num 0, Comp.num 0, none, none⟩
    ⟨Comp.num 1, Comp.num 0, Comp.num 0, none, none⟩
    none false none (fun _ => none) (fun _ => none) (fun _ => none)).1

/-! ## Decimal rendering and parsing lemmas -/

theorem digitVal_digitToChar {d : Nat} (h : d < 10) :
    digitVal (digitToChar d) = d := by
  interval_cases d <;> rfl

theorem isDigitChar_digitToChar {d : Nat} (h : d < 10) :
    isDigitChar (digitToChar d) = true := by
  interval_cases d <;> rfl

theorem natToCharsAux_acc (fuel : Nat) :
    ∀ (n : Nat) (acc : List Char),
      natToCharsAux fuel n acc = natToCharsAux fuel n [] ++ acc := by
  induction fuel with
  | zero => intro n acc; rfl
  | succ fuel ih =>
      intro n acc
      by_cases h : n < 10
      · simp [natToCharsAux, h]
      · simp only [natToCharsAux, if_neg h]
        rw [ih (n / 10) (digitToChar (n % 10) :: acc),
            ih (n / 10) [digitToChar (n % 10)]]
        simp

theorem natToCharsAux_digits (fuel : Nat) :
    ∀ (n : Nat), n < fuel → ∀ c ∈ natToCharsAux fuel n [], isDigitChar c = true := by
  induction fuel with
  | zero => intro n h; omega
  | succ fuel ih =>
      intro n hn c hc
      by_cases h : n < 10
      · simp only [natToCharsAux, if_pos h] at hc
        rw [List.mem_singleton] at hc
        rw [hc]
        exact isDigitChar_digitToChar h
      · simp only [natToCharsAux, if_neg h] at hc
        rw [natToCharsAux_acc] at hc
        rcases List.mem_append.mp hc with hc | hc
        · exact ih (n / 10) (by omega) c hc
        · rw [List.mem_singleton] at hc
          rw [hc]
          exact isDigitChar_digitToChar (Nat.mod_lt n (by omega))

theorem natToCharsAux_ne_nil (fuel n : Nat) (h : n < fuel) :
    natToCharsAux fuel n [] ≠ [] := by
  cases fuel with
  | zero => omega
  | succ fuel =>
      by_cases h10 : n < 10
      · simp [natToCharsAux, h10]
      · simp only [natToCharsAux, if_neg h10]
        rw [natToCharsAux_acc]
        simp

theorem charsValFrom_append (a : Nat) (s t : List Char) :
    charsValFrom a (s ++ t) = charsValFrom (charsValFrom a s) t := by
  simp [charsValFrom, List.foldl_append]

theorem charsVal_natToCharsAux (fuel : Nat) :
    ∀ n, n < fuel → charsVal (natToCharsAux fuel n []) = n := by
  induction fuel with
  | zero => intro n h; omega
  | succ fuel ih =>
      intro n hn
      by_cases h : n < 10
      · simp only [natToCharsAux, if_pos h]
        show charsValFrom 0 [digitToChar n] = n
        simp [charsValFrom, digitVal_digitToChar h]
      · simp only [natToCharsAux, if_neg h]
        rw [natToCharsAux_acc]
        show charsValFrom 0 (natToCharsAux fuel (n / 10) [] ++
          [digitToChar (n % 10)]) = n
        rw [charsValFrom_append]
        have hih := ih (n / 10) (by omega)
        rw [charsVal] at hih
        rw [hih]
        show (n / 10) * 10 + digitVal (digitToChar (n % 10)) = n
        rw [digitVal_digitToChar (Nat.mod_lt n (by omega))]
        omega

theorem natToChars_digits (n : Nat) :
    ∀ c ∈ natToChars n, isDigitChar c = true :=
  natToCharsAux_digits (n + 1) n (Nat.lt_succ_self n)

theorem natToChars_ne_nil (n : Nat) : natToChars n ≠ [] :=
  natToCharsAux_ne_nil (n + 1) n (Nat.lt_succ_self n)

theorem charsVal_natToChars (n : Nat) : charsVal (natToChars n) = n :=
  charsVal_natToCharsAux (n + 1) n (Nat.lt_succ_self n)

theorem digit_not_lower {c : Char} (h : isDigitChar c = true) :
    isLowerAZ c = false := by
  revert h
  simp [isDigitChar, isLowerAZ]
  omega

theorem digit_not_ws {c : Char} (h : isDigitChar c = true) :
    isPyWS c = false := by
  revert h
  simp [isDigitChar, isPyWS]
  omega

theorem digit_ne {c : Char} (h : isDigitChar c = true) :
    c ≠ 'V' ∧ c ≠ '*' ∧ c ≠ '.' ∧ c ≠ '+' ∧ c ≠ '-' := by
  refine ⟨fun he => ?_, fun he => ?_, fun he => ?_, fun he => ?_, fun he => ?_⟩ <;>
    (rw [he] at h; exact absurd h (by decide))

theorem dropWhile_of_all_false {p : Char → Bool} {l : List Char}
    (h : ∀ c ∈ l, p c = false) : l.dropWhile p = l := by
  cases l with
  | nil => rfl
  | cons x xs =>
      rw [List.dropWhile_cons, h x (by simp)]
      rfl

theorem stripEnds_of_all_false {p : Char → Bool} {l : List Char}
    (h : ∀ c ∈ l, p c = false) : stripEnds p l = l := by
  rw [stripEnds, dropWhile_of_all_false h,
      dropWhile_of_all_false (fun c hc => h c (List.mem_reverse.mp hc)),
      List.reverse_reverse]

theorem pyInt_digit_str {s : List Char} (hne : s ≠ [])
    (hd : ∀ c ∈ s, isDigitChar c = true) :
    pyInt s = Except.ok (charsVal s : Int) := by
  rw [pyInt, stripEnds_of_all_false (fun c hc => digit_not_ws (hd c hc))]
  have hok : pyIntDigits false s = Except.ok (charsVal s : Int) := by
    rw [pyIntDigits, if_pos ⟨hne, by rw [List.all_eq_true]; exact hd⟩]
    rfl
  cases s with
  | nil => exact absurd rfl hne
  | cons c cs =>
      have h1 : c ≠ '+' := (digit_ne (hd c (by simp))).2.2.2.1
      have h2 : c ≠ '-' := (digit_ne (hd c (by simp))).2.2.2.2
      split
      · rename_i rest heq
        injection heq with hch _
        exact absurd hch h1
      · rename_i rest heq
        injection heq with hch _
        exact absurd hch h2
      · exact hok

theorem pyInt_natToChars (n : Nat) : pyInt (natToChars n) = Except.ok (n : Int) := by
  rw [pyInt_digit_str (natToChars_ne_nil n) (natToChars_digits n),
      charsVal_natToChars]

/-! ## splitDot lemmas -/

theorem splitDot_no_dot {l : List Char} (h : ∀ c ∈ l, c ≠ '.') :
    splitDot l = [l] := by
  induction l with
  | nil => rfl
  | cons c cs ih =>
      rw [splitDot, if_neg (h c (by simp)), ih (fun x hx => h x (by simp [hx]))]

theorem splitDot_append_dot {a : List Char} (b : List Char)
    (h : ∀ c ∈ a, c ≠ '.') :
    splitDot (a ++ '.' :: b) = a :: splitDot b := by
  induction a with
  | nil => simp [splitDot]
  | cons c cs ih =>
      rw [List.cons_append, splitDot, if_neg (h c (by simp)),
          ih (fun x hx => h x (by simp [hx]))]

/-! ## parse_component and constructor lemmas -/

theorem parseComponentS_digits {s : List Char} (a : Bool) (hne : s ≠ [])
    (hd : ∀ c ∈ s, isDigitChar c = true) :
    parseComponentS s a = Except.ok (PyVal.int (charsVal s : Int), false) := by
  have hstar : (s == ['*']) = false := by
    rw [beq_eq_false_iff_ne]
    intro he
    have := hd '*' (by rw [he]; simp)
    exact absurd this (by decide)
  rw [parseComponentS, hstar, Bool.and_false, if_neg (by simp),
      pyInt_digit_str hne hd]
  rfl

theorem parseComponentS_star_inv {s : List Char} {a a' : Bool}
    (h : parseComponentS s a = Except.ok (PyVal.star, a')) :
    s = ['*'] ∧ a = true ∧ a' = true := by
  revert h
  rw [parseComponentS]
  by_cases hc : (a && s == ['*']) = true
  · rw [if_pos hc]
    intro h
    injection h with h
    rw [Bool.and_eq_true, beq_iff_eq] at hc
    injection h with _ h2
    exact ⟨hc.2, hc.1, h2 ▸ hc.1⟩
  · rw [if_neg hc]
    cases pyInt s with
    | error e => intro h; exact absurd h (by simp [Except.map])
    | ok i =>
        intro h
        simp only [Except.map] at h
        injection h with h
        injection h with h1 _
        exact absurd h1 (by simp)

theorem parseComponentS_int_inv {s : List Char} {a a' : Bool} {i : Int}
    (h : parseComponentS s a = Except.ok (PyVal.int i, a')) :
    a' = false ∧ pyInt s = Except.ok i := by
  revert h
  rw [parseComponentS]
  by_cases hc : (a && s == ['*']) = true
  · rw [if_pos hc]
    intro h
    injection h with h
    injection h with h1 _
    exact absurd h1.symm (by simp)
  · rw [if_neg hc]
    cases hpy : pyInt s with
    | error e => intro h; exact absurd h (by simp [Except.map])
    | ok j =>
        intro h
        simp only [Except.map] at h
        injection h with h
        injection h with h1 h2
        injection h1 with h1
        exact ⟨h2.symm, by rw [h1]⟩

theorem checkComp_inv {isPat : Bool} {x : PyVal} {y : Comp}
    (h : checkComp isPat x = Except.ok y) :
    (x = PyVal.star ∧ y = Comp.wild ∧ isPat = true) ∨
    (∃ i : Int, x = PyVal.int i ∧ 0 ≤ i ∧ y = Comp.num i.toNat) := by
  revert h
  cases x with
  | star =>
      rw [checkComp]
      by_cases hp : isPat = true
      · rw [if_pos hp]
        intro h
        injection h with h
        exact Or.inl ⟨rfl, h.symm, hp⟩
      · rw [if_neg hp]
        intro h
        exact absurd h (by simp)
  | int i =>
      rw [checkComp]
      by_cases hn : i < 0
      · rw [if_pos hn]
        intro h
        exact absurd h (by simp)
      · rw [if_neg hn]
        intro h
        injection h with h
        exact Or.inr ⟨i, rfl, by omega, h.symm⟩

theorem checkComp_star {isPat : Bool} (hp : isPat = true) :
    checkComp isPat PyVal.star = Except.ok Comp.wild := by
  rw [checkComp, if_pos hp]

theorem checkComp_nat (isPat : Bool) (n : Nat) :
    checkComp isPat (PyVal.int (n : Int)) = Except.ok (Comp.num n) := by
  rw [checkComp, if_neg (by omega)]
  simp

theorem CompStr_ne_nil {s : List Char} (h : CompStr s = true) : s ≠ [] := by
  rw [CompStr, Bool.or_eq_true] at h
  rcases h with h | h
  · rw [DigitStr, Bool.and_eq_true] at h
    intro he
    rw [he] at h
    exact absurd h.1 (by decide)
  · rw [beq_iff_eq] at h
    rw [h]
    simp

theorem CompStr_digits {s : List Char} (h : CompStr s = true)
    (hns : s ≠ ['*']) : s ≠ [] ∧ ∀ c ∈ s, isDigitChar c = true := by
  rw [CompStr, Bool.or_eq_true] at h
  rcases h with h | h
  · rw [DigitStr, Bool.and_eq_true] at h
    refine ⟨by simpa using h.1, ?_⟩
    rw [List.all_eq_true] at h
    exact h.2
  · rw [beq_iff_eq] at h
    exact absurd h hns

theorem parseComponentS_compstr {s : List Char} (a : Bool)
    (hcs : CompStr s = true) (hstar : s = ['*'] → a = true) :
    parseComponentS s a = Except.ok (pyValOfStr s, a && (s == ['*'])) := by
  by_cases hs : s = ['*']
  · rw [hstar hs, hs]
    rfl
  · have hd := CompStr_digits hcs hs
    rw [parseComponentS_digits a hd.1 hd.2, pyValOfStr,
        if_neg (by simpa using hs)]
    have : (s == ['*']) = false := by simpa using hs
    rw [this, Bool.and_false]

theorem mkVN_build (c1 c2 c3 : List Char) (cb : Option (List Char))
    (hot : Option Char)
    (h1 : CompStr c1 = true) (h2 : CompStr c2 = true) (h3 : CompStr c3 = true)
    (hb : ∀ s, cb = some s → CompStr s = true)
    (hhot : ∀ h, hot = some h → isLowerAZ h = true ∧ cb = none ∧
      c1 ≠ ['*'] ∧ c2 ≠ ['*'] ∧ c3 ≠ ['*']) :
    mkVN (pyValOfStr c1) (pyValOfStr c2) (pyValOfStr c3) (cb.map pyValOfStr)
        hot =
      Except.ok ⟨compOfStr c1, compOfStr c2, compOfStr c3, cb.map compOfStr,
        hot⟩ := by
  cases hot with
  | some h =>
      rcases hhot h rfl with ⟨hlo, hcb, hn1, hn2, hn3⟩
      subst hcb
      have e1 : (c1 == ['*']) = false := by simpa using hn1
      have e2 : (c2 == ['*']) = false := by simpa using hn2
      have e3 : (c3 == ['*']) = false := by simpa using hn3
      simp [mkVN, pyValOfStr, compOfStr, e1, e2, e3, checkComp_nat,
        checkComp_star, hlo, Except.bind]
  | none =>
      by_cases s1 : (c1 == ['*']) = true <;>
        by_cases s2 : (c2 == ['*']) = true <;>
        by_cases s3 : (c3 == ['*']) = true <;>
        cases cb with
        | none =>
            simp_all [mkVN, pyValOfStr, compOfStr, checkComp_nat,
              checkComp_star, Except.bind]
        | some sb =>
            by_cases sb4 : (sb == ['*']) = true <;>
              simp_all [mkVN, pyValOfStr, compOfStr, checkComp_nat,
                checkComp_star, Except.bind, Except.map]

theorem CompStr_no_dot {s : List Char} (h : CompStr s = true) :
    ∀ c ∈ s, c ≠ '.' := by
  by_cases hs : s = ['*']
  · rw [hs]; intro c hc; rw [List.mem_singleton] at hc; rw [hc]; decide
  · intro c hc
    exact ((digit_ne ((CompStr_digits h hs).2 c hc)).2.2.1)

theorem CompStr_ne_V {s : List Char} (h : CompStr s = true) :
    ∀ c ∈ s, c ≠ 'V' := by
  by_cases hs : s = ['*']
  · rw [hs]; intro c hc; rw [List.mem_singleton] at hc; rw [hc]; decide
  · intro c hc
    exact ((digit_ne ((CompStr_digits h hs).2 c hc)).1)

theorem CompStr_last_not_lower {s : List Char} (h : CompStr s = true)
    {l : Char} (hl : s.getLast? = some l) : isLowerAZ l = false := by
  by_cases hs : s = ['*']
  · rw [hs] at hl
    injection hl with hl
    rw [← hl]
    decide
  · have hmem : l ∈ s := by
      have hne := CompStr_ne_nil h
      rw [List.getLast?_eq_getLast s hne] at hl
      injection hl with hl
      rw [← hl]
      exact List.getLast_mem hne
    exact digit_not_lower ((CompStr_digits h hs).2 l hmem)

theorem stripV_comp {c1 : List Char} (h : CompStr c1 = true) (useV : Bool) :
    stripV ((if useV then ['V'] else []) ++ c1) = Except.ok c1 := by
  cases useV with
  | true =>
      show stripV ('V' :: c1) = Except.ok c1
      rw [stripV, if_pos rfl]
  | false =>
      show stripV ([] ++ c1) = Except.ok c1
      rw [List.nil_append]
      cases hc : c1 with
      | nil => exact absurd hc (CompStr_ne_nil h)
      | cons ch r =>
          rw [stripV, if_neg (CompStr_ne_V h ch (by rw [hc]; simp))]

set_option maxHeartbeats 1000000 in
theorem fromString_build_ok :
    ∀ (useV : Bool) (c1 c2 c3 : List Char) (hot : Option Char)
      (cb : Option (List Char)) (mode : Bool),
      CompStr c1 = true → CompStr c2 = true → CompStr c3 = true →
      (∀ s, cb = some s → CompStr s = true) →
      (∀ h, hot = some h → isLowerAZ h = true ∧ cb = none ∧
        c1 ≠ ['*'] ∧ c2 ≠ ['*'] ∧ c3 ≠ ['*']) →
      (c1 = ['*'] → c2 = ['*']) →
      (c2 = ['*'] → c3 = ['*']) →
      (c3 = ['*'] → ∀ s, cb = some s → s = ['*']) →
      ((c1 = ['*'] ∨ c2 = ['*'] ∨ c3 = ['*'] ∨ cb = some ['*']) → mode = true) →
      fromString (buildVersionInput useV c1 c2 c3 hot cb) mode =
        Except.ok ⟨compOfStr c1, compOfStr c2, compOfStr c3,
          cb.map compOfStr, hot⟩ := by
  intro useV c1 c2 c3 hot cb mode h1 h2 h3 hb hhot hra1 hra2 hra3 hmode
  have hpre : ∀ c ∈ (if useV then ['V'] else []) ++ c1, c ≠ '.' := by
    intro c hc
    rcases List.mem_append.mp hc with hc | hc
    · cases useV with
      | true => rw [List.mem_singleton.mp hc]; decide
      | false => exact absurd hc (List.not_mem_nil c)
    · exact CompStr_no_dot h1 c hc
  cases hot with
  | some h =>
      rcases hhot h rfl with ⟨hlo, hcb, hn1, hn2, hn3⟩
      subst hcb
      have hd3 := CompStr_digits h3 hn3
      have hsd : splitDot (buildVersionInput useV c1 c2 c3 (some h) none) =
          [(if useV then ['V'] else []) ++ c1, c2, c3 ++ [h]] := by
        show splitDot ((if useV then ['V'] else []) ++ c1 ++ '.' :: c2 ++
          '.' :: c3 ++ [h] ++ []) = _
        have he : (if useV then ['V'] else []) ++ c1 ++ '.' :: c2 ++
            '.' :: c3 ++ [h] ++ [] =
            ((if useV then ['V'] else []) ++ c1) ++
              '.' :: (c2 ++ '.' :: (c3 ++ [h])) := by
          simp [List.append_assoc]
        rw [he, splitDot_append_dot _ hpre,
            splitDot_append_dot _ (CompStr_no_dot h2),
            splitDot_no_dot (by
              intro c hc
              rcases List.mem_append.mp hc with hc | hc
              · exact CompStr_no_dot h3 c hc
              · rw [List.mem_singleton.mp hc]
                intro he2
                rw [he2] at hlo
                exact absurd hlo (by decide))]
      simp only [fromString, hsd]
      rw [stripV_comp h1 useV]
      simp only [Except.bind]
      rw [pyLastChar, List.getLast?_concat]
      simp only [Except.bind]
      rw [if_pos hlo, List.dropLast_concat]
      rw [parseComponentS_compstr mode h3 (fun hx => absurd hx hn3)]
      simp only [Except.bind]
      rw [parseComponentS_compstr _ h2 (fun hx => absurd hx hn2)]
      simp only [Except.bind]
      rw [parseComponentS_compstr _ h1 (fun hx => absurd hx hn1)]
      simp only [Except.bind]
      exact mkVN_build c1 c2 c3 none (some h) h1 h2 h3
        (fun s hs => absurd hs (by simp))
        (fun h2x hx => by injection hx with hx; rw [← hx]; exact ⟨hlo, rfl, hn1, hn2, hn3⟩)
  | none =>
      cases cb with
      | none =>
          have hsd : splitDot (buildVersionInput useV c1 c2 c3 none none) =
              [(if useV then ['V'] else []) ++ c1, c2, c3] := by
            show splitDot ((if useV then ['V'] else []) ++ c1 ++ '.' :: c2 ++
              '.' :: c3 ++ [] ++ []) = _
            have he : (if useV then ['V'] else []) ++ c1 ++ '.' :: c2 ++
                '.' :: c3 ++ [] ++ [] =
                ((if useV then ['V'] else []) ++ c1) ++
                  '.' :: (c2 ++ '.' :: c3) := by
              simp [List.append_assoc]
            rw [he, splitDot_append_dot _ hpre,
                splitDot_append_dot _ (CompStr_no_dot h2),
                splitDot_no_dot (CompStr_no_dot h3)]
          simp only [fromString, hsd]
          rw [stripV_comp h1 useV]
          simp only [Except.bind]
          have hne3 := CompStr_ne_nil h3
          rw [pyLastChar, List.getLast?_eq_getLast c3 hne3]
          simp only [Except.bind]
          rw [if_neg (by
            rw [CompStr_last_not_lower h3 (List.getLast?_eq_getLast c3 hne3)]
            simp)]
          rw [parseComponentS_compstr mode h3 (fun hx => hmode (Or.inr (Or.inr (Or.inl hx))))]
          simp only [Except.bind]
          rw [parseComponentS_compstr _ h2 (fun hx => by
            rw [hra2 hx, hmode (Or.inr (Or.inl hx))]
            rfl)]
          simp only [Except.bind]
          rw [parseComponentS_compstr _ h1 (fun hx => by
            rw [hra2 (hra1 hx), hra1 hx, hmode (Or.inl hx)]
            rfl)]
          simp only [Except.bind]
          exact mkVN_build c1 c2 c3 none none h1 h2 h3
            (fun s hs => absurd hs (by simp))
            (fun h2x hx => absurd hx (by simp))
      | some sb =>
          have hbs := hb sb rfl
          have hsd : splitDot (buildVersionInput useV c1 c2 c3 none (some sb)) =
              [(if useV then ['V'] else []) ++ c1, c2, c3, sb] := by
            show splitDot ((if useV then ['V'] else []) ++ c1 ++ '.' :: c2 ++
              '.' :: c3 ++ [] ++ '.' :: sb) = _
            have he : (if useV then ['V'] else []) ++ c1 ++ '.' :: c2 ++
                '.' :: c3 ++ [] ++ '.' :: sb =
                ((if useV then ['V'] else []) ++ c1) ++
                  '.' :: (c2 ++ '.' :: (c3 ++ '.' :: sb)) := by
              simp [List.append_assoc]
            rw [he, splitDot_append_dot _ hpre,
                splitDot_append_dot _ (CompStr_no_dot h2),
                splitDot_append_dot _ (CompStr_no_dot h3),
                splitDot_no_dot (CompStr_no_dot hbs)]
          simp only [fromString, hsd]
          rw [stripV_comp h1 useV]
          simp only [Except.bind]
          rw [parseComponentS_compstr mode hbs (fun hx =>
            hmode (Or.inr (Or.inr (Or.inr (by rw [hx])))))]
          simp only [Except.bind]
          rw [parseComponentS_compstr _ h3 (fun hx => by
            rw [hra3 hx sb rfl, hmode (Or.inr (Or.inr (Or.inl hx)))]
            rfl)]
          simp only [Except.bind]
          rw [parseComponentS_compstr _ h2 (fun hx => by
            rw [hra3 (hra2 hx) sb rfl, hra2 hx, hmode (Or.inr (Or.inl hx))]
            rfl)]
          simp only [Except.bind]
          rw [parseComponentS_compstr _ h1 (fun hx => by
            rw [hra3 (hra2 (hra1 hx)) sb rfl, hra2 (hra1 hx), hra1 hx,
              hmode (Or.inl hx)]
            rfl)]
          simp only [Except.bind]
          exact mkVN_build c1 c2 c3 (some sb) none h1 h2 h3
            (fun s hs => by injection hs with hs; rw [← hs]; exact hbs)
            (fun h2x hx => absurd hx (by simp))

theorem mkVN_inv {ma mi pa : PyVal} {be : Option PyVal} {hf : Option Char}
    {v : VN} (h : mkVN ma mi pa be hf = Except.ok v) :
    v.hotfix = hf ∧
    ((ma = PyVal.star ∧ v.major = Comp.wild) ∨
      (∃ i, ma = PyVal.int i ∧ v.major = Comp.num i.toNat)) ∧
    ((mi = PyVal.star ∧ v.minor = Comp.wild) ∨
      (∃ i, mi = PyVal.int i ∧ v.minor = Comp.num i.toNat)) ∧
    ((pa = PyVal.star ∧ v.patch = Comp.wild) ∨
      (∃ i, pa = PyVal.int i ∧ v.patch = Comp.num i.toNat)) ∧
    ((be = none ∧ v.beta = none) ∨
      (be = some PyVal.star ∧ v.beta = some Comp.wild) ∨
      (∃ i, be = some (PyVal.int i) ∧ ∃ n, v.beta = some (Comp.num n))) ∧
    (∀ hh, hf = some hh → isLowerAZ hh = true ∧ be = none ∧
      ma ≠ PyVal.star ∧ mi ≠ PyVal.star ∧ pa ≠ PyVal.star) := by
  revert h
  rw [mkVN]
  by_cases hbs : (be.isSome && hf.isSome) = true
  · rw [if_pos hbs]
    intro h
    exact absurd h (by simp)
  · rw [if_neg hbs]
    intro h
    rcases bind_ok h with ⟨cma, hma, h⟩
    rcases bind_ok h with ⟨cmi, hmi, h⟩
    rcases bind_ok h with ⟨cpa, hpa, h⟩
    rcases bind_ok h with ⟨cbe, hbe, h⟩
    have hfin : v.hotfix = hf ∧ v.major = cma ∧ v.minor = cmi ∧
        v.patch = cpa ∧ v.beta = cbe ∧
        (∀ hh, hf = some hh → isLowerAZ hh = true ∧
          ((ma == PyVal.star || mi == PyVal.star || pa == PyVal.star ||
            be == some PyVal.star) && hf.isNone) = false) := by
      revert h
      cases hf with
      | none =>
          intro h
          injection h with h
          rw [← h]
          exact ⟨rfl, rfl, rfl, rfl, rfl, fun hh hc => by injection hc⟩
      | some hh =>
          dsimp only
          by_cases hlo : (!isLowerAZ hh ||
              ((ma == PyVal.star || mi == PyVal.star || pa == PyVal.star ||
                be == some PyVal.star) && (some hh : Option Char).isNone)) = true
          · rw [if_pos hlo]
            intro h
            exact absurd h (by simp)
          · rw [if_neg hlo]
            intro h
            injection h with h
            rw [← h]
            rw [Bool.or_eq_true] at hlo
            push_neg at hlo
            have hl1 : isLowerAZ hh = true := by
              cases hiso : isLowerAZ hh with
              | true => rfl
              | false => exact absurd (by rw [hiso]; rfl) hlo.1
            have hl2 : ((ma == PyVal.star || mi == PyVal.star ||
                pa == PyVal.star || be == some PyVal.star) &&
                (some hh : Option Char).isNone) = false := by
              cases hY : ((ma == PyVal.star || mi == PyVal.star ||
                  pa == PyVal.star || be == some PyVal.star) &&
                  (some hh : Option Char).isNone) with
              | true => exact absurd hY hlo.2
              | false => rfl
            refine ⟨rfl, rfl, rfl, rfl, rfl, fun hh2 hc => ?_⟩
            injection hc with hc
            rw [← hc]
            exact ⟨hl1, hl2⟩
    rcases hfin with ⟨hhot, hM, hm, hp2, hb2, hrest⟩
    refine ⟨hhot, ?_, ?_, ?_, ?_, fun hh hfh => ?_⟩
    · rcases checkComp_inv hma with ⟨hx, hy, _⟩ | ⟨i, hx, _, hy⟩
      · exact Or.inl ⟨hx, by rw [hM, hy]⟩
      · exact Or.inr ⟨i, hx, by rw [hM, hy]⟩
    · rcases checkComp_inv hmi with ⟨hx, hy, _⟩ | ⟨i, hx, _, hy⟩
      · exact Or.inl ⟨hx, by rw [hm, hy]⟩
      · exact Or.inr ⟨i, hx, by rw [hm, hy]⟩
    · rcases checkComp_inv hpa with ⟨hx, hy, _⟩ | ⟨i, hx, _, hy⟩
      · exact Or.inl ⟨hx, by rw [hp2, hy]⟩
      · exact Or.inr ⟨i, hx, by rw [hp2, hy]⟩
    · cases hbec : be with
      | none =>
          rw [hbec] at hbe
          have : cbe = none := by
            have hbe2 : Except.ok (none : Option Comp) = Except.ok cbe := hbe
            injection hbe2 with hbe2
            exact hbe2.symm
          exact Or.inl ⟨rfl, by rw [hb2, this]⟩
      | some b =>
          rw [hbec] at hbe
          dsimp only at hbe
          rcases hcc : checkComp ((ma == PyVal.star || mi == PyVal.star ||
              pa == PyVal.star ||
              (some b : Option PyVal) == some PyVal.star) && hf.isNone) b
            with e | y
          · rw [hcc] at hbe
            exact absurd hbe (by simp [Except.map])
          · rw [hcc] at hbe
            simp only [Except.map] at hbe
            injection hbe with hbe
            rcases checkComp_inv hcc with ⟨hx, hy, _⟩ | ⟨i, hx, _, hy⟩
            · exact Or.inr (Or.inl ⟨by rw [hx], by rw [hb2, ← hbe, hy]⟩)
            · exact Or.inr (Or.inr ⟨i, by rw [hx], _, by rw [hb2, ← hbe, hy]⟩)
    · rcases hrest hh hfh with ⟨h1, h2⟩
      subst hfh
      simp only [Option.isNone_some, Bool.and_false] at h2
      -- h2 no longer informative; use the isPat = false route
      have hpat : ((ma == PyVal.star || mi == PyVal.star || pa == PyVal.star ||
          be == some PyVal.star) && (some hh : Option Char).isNone) = false := by
        simp
      -- star components require the pattern flag
      have hbe0 : be = none := by
        cases hbeo : be with
        | none => rfl
        | some b =>
            rw [hbeo] at hbs
            simp at hbs
      refine ⟨h1, hbe0, fun hx => ?_, fun hx => ?_, fun hx => ?_⟩
      · rw [hx] at hma
        rcases checkComp_inv hma with ⟨_, _, hq⟩ | ⟨i, hq, _, _⟩
        · simp at hq
        · exact absurd hq (by simp)
      · rw [hx] at hmi
        rcases checkComp_inv hmi with ⟨_, _, hq⟩ | ⟨i, hq, _, _⟩
        · simp at hq
        · exact absurd hq (by simp)
      · rw [hx] at hpa
        rcases checkComp_inv hpa with ⟨_, _, hq⟩ | ⟨i, hq, _, _⟩
        · simp at hq
        · exact absurd hq (by simp)

theorem pyInt_star : pyInt ['*'] = Except.error "invalid literal for int() with base 10" := rfl

theorem parseComponentS_flag_inv {s : List Char} {a : Bool} {p : PyVal}
    (h : parseComponentS s a = Except.ok (p, true)) :
    p = PyVal.star ∧ s = ['*'] ∧ a = true := by
  cases p with
  | star =>
      rcases parseComponentS_star_inv h with ⟨h1, h2, _⟩
      exact ⟨rfl, h1, h2⟩
  | int i =>
      rcases parseComponentS_int_inv h with ⟨h1, _⟩
      exact absurd h1 (by simp)

theorem parseComponentS_star_str {a a' : Bool} {p : PyVal}
    (h : parseComponentS ['*'] a = Except.ok (p, a')) :
    p = PyVal.star ∧ a = true ∧ a' = true := by
  revert h
  cases a with
  | true =>
      rw [parseComponentS]
      intro h
      injection h with h
      injection h with h1 h2
      exact ⟨h1.symm, rfl, h2.symm⟩
  | false =>
      rw [parseComponentS]
      simp only [Bool.false_and, if_neg (by simp : ¬False), pyInt_star]
      intro h
      exact absurd h (by simp [Except.map])

theorem fromString3_inv {s : List Char} {mode : Bool} {v : VN}
    {v0 v1 v2 : List Char} (hsd : splitDot s = [v0, v1, v2])
    (h : fromString s mode = Except.ok v) :
    ∃ (major0 : List Char) (lastc : Char) (pv1 : PyVal) (pv2 : Bool)
      (mv1 : PyVal) (mv2 : Bool) (jv1 : PyVal) (jv2 : Bool)
      (hp1 : Option Char) (hpX : List Char),
      stripV v0 = Except.ok major0 ∧ pyLastChar v2 = Except.ok lastc ∧
      ((isLowerAZ lastc = true ∧ hp1 = some lastc ∧ hpX = v2.dropLast) ∨
       (isLowerAZ lastc = false ∧ hp1 = none ∧ hpX = v2)) ∧
      parseComponentS hpX mode = Except.ok (pv1, pv2) ∧
      parseComponentS v1 pv2 = Except.ok (mv1, mv2) ∧
      parseComponentS major0 mv2 = Except.ok (jv1, jv2) ∧
      mkVN jv1 mv1 pv1 none hp1 = Except.ok v := by
  rw [fromString, hsd] at h
  rcases bind_ok h with ⟨major0, hsv, h⟩
  rcases bind_ok h with ⟨lastc, hlc, h⟩
  dsimp only at h
  by_cases hlw : isLowerAZ lastc = true
  · rw [hlw, if_pos rfl] at h
    dsimp only at h
    rcases bind_ok h with ⟨⟨pv1, pv2⟩, hpv, h⟩
    rcases bind_ok h with ⟨⟨mv1, mv2⟩, hmv, h⟩
    rcases bind_ok h with ⟨⟨jv1, jv2⟩, hjv, h⟩
    exact ⟨major0, lastc, pv1, pv2, mv1, mv2, jv1, jv2, some lastc,
      v2.dropLast, hsv, hlc, Or.inl ⟨hlw, rfl, rfl⟩, hpv, hmv, hjv, h⟩
  · rw [Bool.not_eq_true] at hlw
    rw [hlw] at h
    rw [if_neg (by simp)] at h
    dsimp only at h
    rcases bind_ok h with ⟨⟨pv1, pv2⟩, hpv, h⟩
    rcases bind_ok h with ⟨⟨mv1, mv2⟩, hmv, h⟩
    rcases bind_ok h with ⟨⟨jv1, jv2⟩, hjv, h⟩
    exact ⟨major0, lastc, pv1, pv2, mv1, mv2, jv1, jv2, none, v2,
      hsv, hlc, Or.inr ⟨hlw, rfl, rfl⟩, hpv, hmv, hjv, h⟩

theorem fromString4_inv {s : List Char} {mode : Bool} {v : VN}
    {v0 v1 v2 v3 : List Char} (hsd : splitDot s = [v0, v1, v2, v3])
    (h : fromString s mode = Except.ok v) :
    ∃ (major0 : List Char) (bv1 : PyVal) (bv2 : Bool) (pv1 : PyVal)
      (pv2 : Bool) (mv1 : PyVal) (mv2 : Bool) (jv1 : PyVal) (jv2 : Bool),
      stripV v0 = Except.ok major0 ∧
      parseComponentS v3 mode = Except.ok (bv1, bv2) ∧
      parseComponentS v2 bv2 = Except.ok (pv1, pv2) ∧
      parseComponentS v1 pv2 = Except.ok (mv1, mv2) ∧
      parseComponentS major0 mv2 = Except.ok (jv1, jv2) ∧
      mkVN jv1 mv1 pv1 (some bv1) none = Except.ok v := by
  rw [fromString, hsd] at h
  rcases bind_ok h with ⟨major0, hsv, h⟩
  rcases bind_ok h with ⟨⟨bv1, bv2⟩, hbv, h⟩
  rcases bind_ok h with ⟨⟨pv1, pv2⟩, hpv, h⟩
  rcases bind_ok h with ⟨⟨mv1, mv2⟩, hmv, h⟩
  rcases bind_ok h with ⟨⟨jv1, jv2⟩, hjv, h⟩
  exact ⟨major0, bv1, bv2, pv1, pv2, mv1, mv2, jv1, jv2,
    hsv, hbv, hpv, hmv, hjv, h⟩

theorem fromString_shape {s : List Char} {mode : Bool} {v : VN}
    (h : fromString s mode = Except.ok v) :
    (∃ v0 v1 v2, splitDot s = [v0, v1, v2]) ∨
    (∃ v0 v1 v2 v3, splitDot s = [v0, v1, v2, v3]) := by
  rcases hsd : splitDot s with _ | ⟨v0, _ | ⟨v1, _ | ⟨v2, _ | ⟨v3, _ | ⟨v4, rest⟩⟩⟩⟩⟩
  · rw [fromString, hsd] at h
    exact absurd h (by simp)
  · rw [fromString, hsd] at h
    exact absurd h (by simp)
  · rw [fromString, hsd] at h
    exact absurd h (by simp)
  · exact Or.inl ⟨v0, v1, v2, rfl⟩
  · exact Or.inr ⟨v0, v1, v2, v3, rfl⟩
  · rw [fromString, hsd] at h
    exact absurd h (by simp)
theorem comp_corr_star {x : PyVal} {c : Comp}
    (hc : (x = PyVal.star ∧ c = Comp.wild) ∨
      (∃ i, x = PyVal.int i ∧ c = Comp.num i.toNat)) :
    (c = Comp.wild → x = PyVal.star) ∧ (x = PyVal.star → c = Comp.wild) := by
  rcases hc with ⟨h1, h2⟩ | ⟨i, h1, h2⟩
  · exact ⟨fun _ => h1, fun _ => h2⟩
  · constructor
    · intro hw
      rw [h2] at hw
      exact absurd hw (by simp)
    · intro hs
      rw [h1] at hs
      exact absurd hs (by simp)

theorem fromString_ok_props {s : List Char} {mode : Bool} {v : VN}
    (h : fromString s mode = Except.ok v) :
    (v.major = Comp.wild → v.minor = Comp.wild) ∧
    (v.minor = Comp.wild → v.patch = Comp.wild) ∧
    (v.patch = Comp.wild → ∀ b, v.beta = some b → b = Comp.wild) ∧
    (∀ hh, v.hotfix = some hh → isLowerAZ hh = true ∧ v.beta = none ∧
      v.major ≠ Comp.wild ∧ v.minor ≠ Comp.wild ∧ v.patch ≠ Comp.wild) ∧
    ((v.major = Comp.wild ∨ v.minor = Comp.wild ∨ v.patch = Comp.wild ∨
      v.beta = some Comp.wild) → mode = true) := by
  rcases fromString_shape h with ⟨v0, v1, v2, hsd⟩ | ⟨v0, v1, v2, v3, hsd⟩
  · rcases fromString3_inv hsd h with
      ⟨major0, lastc, pv1, pv2, mv1, mv2, jv1, jv2, hp1, hpX,
       hsv, hlc, hcase, hpv, hmv, hjv, hmk⟩
    rcases mkVN_inv hmk with ⟨hhot, hM, hm, hP, hB, hhf⟩
    have hbnone : v.beta = none := by
      rcases hB with ⟨_, hb⟩ | ⟨hb, _⟩ | ⟨i, hb, _⟩
      · exact hb
      · exact absurd hb (by simp)
      · exact absurd hb (by simp)
    have hMaj := (comp_corr_star hM).1
    have hMajInv := (comp_corr_star hM).2
    have hMin := (comp_corr_star hm).1
    have hMinInv := (comp_corr_star hm).2
    have hPat := (comp_corr_star hP).1
    have hPatInv := (comp_corr_star hP).2
    have c1 : v.major = Comp.wild → v.minor = Comp.wild := by
      intro hw
      rw [hMaj hw] at hjv
      have h1 := (parseComponentS_star_inv hjv).2.1
      rw [h1] at hmv
      exact hMinInv (parseComponentS_flag_inv hmv).1
    have c2 : v.minor = Comp.wild → v.patch = Comp.wild := by
      intro hw
      rw [hMin hw] at hmv
      have h1 := (parseComponentS_star_inv hmv).2.1
      rw [h1] at hpv
      exact hPatInv (parseComponentS_flag_inv hpv).1
    have c3 : v.patch = Comp.wild → ∀ b, v.beta = some b → b = Comp.wild := by
      intro _ b hb
      rw [hbnone] at hb
      exact absurd hb (by simp)
    have c4 : ∀ hh, v.hotfix = some hh → isLowerAZ hh = true ∧
        v.beta = none ∧ v.major ≠ Comp.wild ∧ v.minor ≠ Comp.wild ∧
        v.patch ≠ Comp.wild := by
      intro hh hvh
      rw [hhot] at hvh
      rcases hhf hh hvh with ⟨hlo2, _, hne1, hne2, hne3⟩
      exact ⟨hlo2, hbnone, fun hw => hne1 (hMaj hw), fun hw => hne2 (hMin hw),
        fun hw => hne3 (hPat hw)⟩
    have c5 : (v.major = Comp.wild ∨ v.minor = Comp.wild ∨
        v.patch = Comp.wild ∨ v.beta = some Comp.wild) → mode = true := by
      intro hw
      have hpw : v.patch = Comp.wild := by
        rcases hw with hw | hw | hw | hw
        · exact c2 (c1 hw)
        · exact c2 hw
        · exact hw
        · rw [hbnone] at hw
          exact absurd hw (by simp)
      rw [hPat hpw] at hpv
      exact (parseComponentS_star_inv hpv).2.1
    exact ⟨c1, c2, c3, c4, c5⟩
  · rcases fromString4_inv hsd h with
      ⟨major0, bv1, bv2, pv1, pv2, mv1, mv2, jv1, jv2,
       hsv, hbv, hpv, hmv, hjv, hmk⟩
    rcases mkVN_inv hmk with ⟨hhot, hM, hm, hP, hB, hhf⟩
    have hMaj := (comp_corr_star hM).1
    have hMin := (comp_corr_star hm).1
    have hMinInv := (comp_corr_star hm).2
    have hPat := (comp_corr_star hP).1
    have hPatInv := (comp_corr_star hP).2
    have c1 : v.major = Comp.wild → v.minor = Comp.wild := by
      intro hw
      rw [hMaj hw] at hjv
      have h1 := (parseComponentS_star_inv hjv).2.1
      rw [h1] at hmv
      exact hMinInv (parseComponentS_flag_inv hmv).1
    have c2 : v.minor = Comp.wild → v.patch = Comp.wild := by
      intro hw
      rw [hMin hw] at hmv
      have h1 := (parseComponentS_star_inv hmv).2.1
      rw [h1] at hpv
      exact hPatInv (parseComponentS_flag_inv hpv).1
    have hbvstar : v.patch = Comp.wild → bv1 = PyVal.star ∧ mode = true := by
      intro hw
      rw [hPat hw] at hpv
      have h1 := (parseComponentS_star_inv hpv).2.1
      rw [h1] at hbv
      rcases parseComponentS_flag_inv hbv with ⟨hb1, _, hb3⟩
      exact ⟨hb1, hb3⟩
    have c3 : v.patch = Comp.wild → ∀ b, v.beta = some b → b = Comp.wild := by
      intro hw b hb
      have hb1 := (hbvstar hw).1
      rcases hB with ⟨hx, _⟩ | ⟨_, hy⟩ | ⟨i, hx, _, _⟩
      · exact absurd hx (by simp)
      · rw [hy] at hb
        injection hb with hb
        exact hb.symm
      · injection hx with hx
        rw [hb1] at hx
        exact absurd hx (by simp)
    have c4 : ∀ hh, v.hotfix = some hh → isLowerAZ hh = true ∧
        v.beta = none ∧ v.major ≠ Comp.wild ∧ v.minor ≠ Comp.wild ∧
        v.patch ≠ Comp.wild := by
      intro hh hvh
      rw [hhot] at hvh
      exact absurd hvh (by simp)
    have c5 : (v.major = Comp.wild ∨ v.minor = Comp.wild ∨
        v.patch = Comp.wild ∨ v.beta = some Comp.wild) → mode = true := by
      intro hw
      rcases hw with hw | hw | hw | hw
      · exact (hbvstar (c2 (c1 hw))).2
      · exact (hbvstar (c2 hw)).2
      · exact (hbvstar hw).2
      · have hb1 : bv1 = PyVal.star := by
          rcases hB with ⟨hx, _⟩ | ⟨hx, _⟩ | ⟨i, hx, n, hy⟩
          · exact absurd hx (by simp)
          · exact Option.some.inj hx
          · rw [hw] at hy
            injection hy with hy
            exact absurd hy (by simp)
        rw [hb1] at hbv
        exact (parseComponentS_star_inv hbv).2.1
    exact ⟨c1, c2, c3, c4, c5⟩
theorem fromString_ok_star_suffix {s : List Char} {v : VN} {i j : Nat}
    {ci cj : List Char} (h : fromString s true = Except.ok v) (hij : i < j)
    (hgi : (splitDot s).get? i = some ci)
    (hgj : (splitDot s).get? j = some cj) (hstar : ci = ['*']) :
    cj = ['*'] := by
  subst hstar
  rcases fromString_shape h with ⟨v0, v1, v2, hsd⟩ | ⟨v0, v1, v2, v3, hsd⟩
  · rw [hsd] at hgi hgj
    rcases fromString3_inv hsd h with
      ⟨major0, lastc, pv1, pv2, mv1, mv2, jv1, jv2, hp1, hpX,
       hsv, hlc, hcase, hpv, hmv, hjv, hmk⟩
    rcases mkVN_inv hmk with ⟨_, _, _, _, _, hhf⟩
    have hv2 : pv2 = true → v2 = ['*'] := by
      intro ht
      rw [ht] at hpv
      rcases parseComponentS_flag_inv hpv with ⟨hp1s, hX, _⟩
      rcases hcase with ⟨hlw, hp1e, hXe⟩ | ⟨hlw, hp1e, hXe⟩
      · rcases hhf lastc hp1e with ⟨_, _, _, _, hne3⟩
        exact absurd hp1s hne3
      · rw [← hXe]
        exact hX
    have B2 : v1 = ['*'] → v2 = ['*'] := by
      intro hv1
      rw [hv1] at hmv
      rcases parseComponentS_star_str hmv with ⟨_, hpv2, _⟩
      exact hv2 hpv2
    have B1 : v0 = ['*'] → v1 = ['*'] ∧ v2 = ['*'] := by
      intro hv0
      rw [hv0] at hsv
      have hm0 : major0 = ['*'] := by
        rw [show stripV ['*'] = Except.ok ['*'] from rfl] at hsv
        injection hsv with h'
        exact h'.symm
      rw [hm0] at hjv
      rcases parseComponentS_star_str hjv with ⟨_, hmv2, _⟩
      rw [hmv2] at hmv
      rcases parseComponentS_flag_inv hmv with ⟨_, hv1, _⟩
      exact ⟨hv1, B2 hv1⟩
    rcases j with _ | _ | _ | j
    · exact absurd hij (by omega)
    · have hi0 : i = 0 := by omega
      subst hi0
      simp only [List.get?] at hgi hgj
      rw [← Option.some.inj hgj]
      exact (B1 (Option.some.inj hgi)).1
    · rcases i with _ | _ | i
      · simp only [List.get?] at hgi hgj
        rw [← Option.some.inj hgj]
        exact (B1 (Option.some.inj hgi)).2
      · simp only [List.get?] at hgi hgj
        rw [← Option.some.inj hgj]
        exact B2 (Option.some.inj hgi)
      · exact absurd hij (by omega)
    · simp only [List.get?] at hgj
      exact absurd hgj (by simp)
  · rw [hsd] at hgi hgj
    rcases fromString4_inv hsd h with
      ⟨major0, bv1, bv2, pv1, pv2, mv1, mv2, jv1, jv2,
       hsv, hbv, hpv, hmv, hjv, hmk⟩
    have B3 : v2 = ['*'] → v3 = ['*'] := by
      intro hv2'
      rw [hv2'] at hpv
      rcases parseComponentS_star_str hpv with ⟨_, hbv2, _⟩
      rw [hbv2] at hbv
      rcases parseComponentS_flag_inv hbv with ⟨_, hv3, _⟩
      exact hv3
    have B2 : v1 = ['*'] → v2 = ['*'] ∧ v3 = ['*'] := by
      intro hv1
      rw [hv1] at hmv
      rcases parseComponentS_star_str hmv with ⟨_, hpv2, _⟩
      rw [hpv2] at hpv
      rcases parseComponentS_flag_inv hpv with ⟨_, hv2', _⟩
      exact ⟨hv2', B3 hv2'⟩
    have B1 : v0 = ['*'] → v1 = ['*'] ∧ v2 = ['*'] ∧ v3 = ['*'] := by
      intro hv0
      rw [hv0] at hsv
      have hm0 : major0 = ['*'] := by
        rw [show stripV ['*'] = Except.ok ['*'] from rfl] at hsv
        injection hsv with h'
        exact h'.symm
      rw [hm0] at hjv
      rcases parseComponentS_star_str hjv with ⟨_, hmv2, _⟩
      rw [hmv2] at hmv
      rcases parseComponentS_flag_inv hmv with ⟨_, hv1, _⟩
      exact ⟨hv1, B2 hv1⟩
    rcases j with _ | _ | _ | _ | j
    · exact absurd hij (by omega)
    · have hi0 : i = 0 := by omega
      subst hi0
      simp only [List.get?] at hgi hgj
      rw [← Option.some.inj hgj]
      exact (B1 (Option.some.inj hgi)).1
    · rcases i with _ | _ | i
      · simp only [List.get?] at hgi hgj
        rw [← Option.some.inj hgj]
        exact (B1 (Option.some.inj hgi)).2.1
      · simp only [List.get?] at hgi hgj
        rw [← Option.some.inj hgj]
        exact (B2 (Option.some.inj hgi)).1
      · exact absurd hij (by omega)
    · rcases i with _ | _ | _ | i
      · simp only [List.get?] at hgi hgj
        rw [← Option.some.inj hgj]
        exact (B1 (Option.some.inj hgi)).2.2
      · simp only [List.get?] at hgi hgj
        rw [← Option.some.inj hgj]
        exact (B2 (Option.some.inj hgi)).2
      · simp only [List.get?] at hgi hgj
        rw [← Option.some.inj hgj]
        exact B3 (Option.some.inj hgi)
      · exact absurd hij (by omega)
    · simp only [List.get?] at hgj
      exact absurd hgj (by simp)
theorem natToChars_ne_star (n : Nat) : natToChars n ≠ ['*'] := by
  intro he
  have hd := natToChars_digits n '*' (by rw [he]; simp)
  exact absurd hd (by decide)

theorem CompStr_toChars (c : Comp) : CompStr c.toChars = true := by
  cases c with
  | wild => rfl
  | num n =>
      rw [Comp.toChars, CompStr, DigitStr]
      have h1 : (natToChars n).isEmpty = false := by
        cases hn : natToChars n with
        | nil => exact absurd hn (natToChars_ne_nil n)
        | cons a l => rfl
      have h2 : (natToChars n).all isDigitChar = true := by
        rw [List.all_eq_true]
        exact natToChars_digits n
      rw [h1, h2]
      rfl

theorem toChars_eq_star {c : Comp} (h : c.toChars = ['*']) : c = Comp.wild := by
  cases c with
  | wild => rfl
  | num n => exact absurd h (natToChars_ne_star n)

theorem compOfStr_toChars (c : Comp) : compOfStr c.toChars = c := by
  cases c with
  | wild => rfl
  | num n =>
      rw [Comp.toChars, compOfStr, if_neg (by simpa using natToChars_ne_star n),
        charsVal_natToChars]

theorem toChars_eq_build (v : VN)
    (hx : ∀ hh, v.hotfix = some hh → v.beta = none) :
    v.toChars = buildVersionInput false v.major.toChars v.minor.toChars
      v.patch.toChars v.hotfix (v.beta.map Comp.toChars) := by
  rw [VN.toChars, buildVersionInput.eq_def]
  cases hh : v.hotfix with
  | some h =>
      rw [hx h hh]
      simp [Option.map]
  | none =>
      cases v.beta with
      | none => simp
      | some b => simp [Option.map]

/-- C8: for every version string that `from_string` parses successfully (in
pattern-permitting mode or not), rendering the parsed `VersionNumber` with
`__str__` and parsing the rendering again yields exactly the first parse:
`parse(format(parse(s))) == parse(s)`. -/
theorem C8_parse_format_roundtrip {s : List Char} {mode : Bool} {v : VN}
    (h : fromString s mode = Except.ok v) :
    fromString (VN.toChars v) mode = Except.ok v := by
  obtain ⟨p1, p2, p3, p4, p5⟩ := fromString_ok_props h
  have hbx : ∀ hh, v.hotfix = some hh → v.beta = none :=
    fun hh h' => (p4 hh h').2.1
  have hb : ∀ s', v.beta.map Comp.toChars = some s' → CompStr s' = true := by
    intro s' hs'
    cases hbv : v.beta with
    | none =>
        rw [hbv] at hs'
        exact absurd hs' (by simp)
    | some b =>
        rw [hbv] at hs'
        simp only [Option.map] at hs'
        injection hs' with hs'
        rw [← hs']
        exact CompStr_toChars b
  have hhot : ∀ hh, v.hotfix = some hh → isLowerAZ hh = true ∧
      v.beta.map Comp.toChars = none ∧ v.major.toChars ≠ ['*'] ∧
      v.minor.toChars ≠ ['*'] ∧ v.patch.toChars ≠ ['*'] := by
    intro hh h'
    rcases p4 hh h' with ⟨hlo, hbn, hn1, hn2, hn3⟩
    exact ⟨hlo, by rw [hbn]; rfl, fun he => hn1 (toChars_eq_star he),
      fun he => hn2 (toChars_eq_star he), fun he => hn3 (toChars_eq_star he)⟩
  have hra1 : v.major.toChars = ['*'] → v.minor.toChars = ['*'] := by
    intro he
    rw [p1 (toChars_eq_star he)]
    rfl
  have hra2 : v.minor.toChars = ['*'] → v.patch.toChars = ['*'] := by
    intro he
    rw [p2 (toChars_eq_star he)]
    rfl
  have hra3 : v.patch.toChars = ['*'] →
      ∀ s', v.beta.map Comp.toChars = some s' → s' = ['*'] := by
    intro he s' hs'
    cases hbv : v.beta with
    | none =>
        rw [hbv] at hs'
        exact absurd hs' (by simp)
    | some b =>
        rw [hbv] at hs'
        simp only [Option.map] at hs'
        injection hs' with hs'
        rw [← hs', p3 (toChars_eq_star he) b hbv]
        rfl
  have hmode : (v.major.toChars = ['*'] ∨ v.minor.toChars = ['*'] ∨
      v.patch.toChars = ['*'] ∨ v.beta.map Comp.toChars = some ['*']) →
      mode = true := by
    intro hw
    apply p5
    rcases hw with hw | hw | hw | hw
    · exact Or.inl (toChars_eq_star hw)
    · exact Or.inr (Or.inl (toChars_eq_star hw))
    · exact Or.inr (Or.inr (Or.inl (toChars_eq_star hw)))
    · refine Or.inr (Or.inr (Or.inr ?_))
      cases hbv : v.beta with
      | none =>
          rw [hbv] at hw
          exact absurd hw (by simp)
      | some b =>
          rw [hbv] at hw
          simp only [Option.map] at hw
          injection hw with hw
          rw [toChars_eq_star hw]
  have hmain := fromString_build_ok false v.major.toChars v.minor.toChars
    v.patch.toChars v.hotfix (v.beta.map Comp.toChars) mode
    (CompStr_toChars _) (CompStr_toChars _) (CompStr_toChars _)
    hb hhot hra1 hra2 hra3 hmode
  rw [toChars_eq_build v hbx, hmain]
  have e4 : (v.beta.map Comp.toChars).map compOfStr = v.beta := by
    cases v.beta with
    | none => rfl
    | some b =>
        simp only [Option.map]
        rw [compOfStr_toChars]
  rw [compOfStr_toChars v.major, compOfStr_toChars v.minor,
    compOfStr_toChars v.patch, e4]

theorem C8_witness :
    fromString ("V1.2.3b".toList) false =
      Except.ok ⟨Comp.num 1, Comp.num 2, Comp.num 3, none, some 'b'⟩ ∧
    fromString (VN.toChars ⟨Comp.num 1, Comp.num 2, Comp.num 3, none,
        some 'b'⟩) false =
      Except.ok ⟨Comp.num 1, Comp.num 2, Comp.num 3, none, some 'b'⟩ :=
  ⟨rfl, @C8_parse_format_roundtrip ("V1.2.3b".toList) false
    ⟨Comp.num 1, Comp.num 2, Comp.num 3, none, some 'b'⟩ rfl⟩

/-- C9: with pattern parsing enabled, `from_string` only accepts inputs in
which every component standing to the right of a component that is the
literal wildcard `*` is itself the literal wildcard — so any non-wildcard
to the right of a wildcard makes the parse raise — and it accepts every
well-formed dotted input (with optional `V` prefix, optional hotfix letter
and optional beta component) whose wildcard positions form a right-aligned
contiguous suffix of the present components. -/
theorem C9_wildcards_right_aligned :
    (∀ (s : List Char) (v : VN) (i j : Nat) (ci cj : List Char),
        fromString s true = Except.ok v → i < j →
        (splitDot s).get? i = some ci → (splitDot s).get? j = some cj →
        ci = ['*'] → cj = ['*']) ∧
    (∀ (useV : Bool) (c1 c2 c3 : List Char) (hot : Option Char)
        (cb : Option (List Char)),
        CompStr c1 = true → CompStr c2 = true → CompStr c3 = true →
        (∀ s, cb = some s → CompStr s = true) →
        (∀ h, hot = some h → isLowerAZ h = true ∧ cb = none ∧
          c1 ≠ ['*'] ∧ c2 ≠ ['*'] ∧ c3 ≠ ['*']) →
        (c1 = ['*'] → c2 = ['*']) → (c2 = ['*'] → c3 = ['*']) →
        (c3 = ['*'] → ∀ s, cb = some s → s = ['*']) →
        ∃ v, fromString (buildVersionInput useV c1 c2 c3 hot cb) true =
          Except.ok v) := by
  constructor
  · intro s v i j ci cj h hij hgi hgj hstar
    exact fromString_ok_star_suffix h hij hgi hgj hstar
  · intro useV c1 c2 c3 hot cb h1 h2 h3 hb hhot hra1 hra2 hra3
    exact ⟨_, fromString_build_ok useV c1 c2 c3 hot cb true h1 h2 h3 hb hhot
      hra1 hra2 hra3 (fun _ => rfl)⟩

theorem C9_witness :
    (fromString ("1.*.*".toList) true =
        Except.ok ⟨Comp.num 1, Comp.wild, Comp.wild, none, none⟩ ∧
      (['*'] : List Char) = ['*']) ∧
    (∃ v, fromString (buildVersionInput false ['2'] ['*'] ['*'] none none)
        true = Except.ok v) := by
  constructor
  · exact ⟨rfl, C9_wildcards_right_aligned.1 ("1.*.*".toList)
      ⟨Comp.num 1, Comp.wild, Comp.wild, none, none⟩ 1 2 ['*'] ['*'] rfl
      (by decide) rfl rfl rfl⟩
  · exact C9_wildcards_right_aligned.2 false ['2'] ['*'] ['*'] none none
      (by decide) (by decide) (by decide) (fun s hs => absurd hs (by simp))
      (fun h hh => absurd hh (by simp)) (by decide) (by decide)
      (fun _ s hs => absurd hs (by simp))
end UpdaTA
